import Mathlib

/-!
Verification of the `lmstudio` export module of mipalgu/gollama.

The development shallowly embeds `src/lmstudio/export.go`: Go strings are
modelled as `List Char`, the Modelfile directive parser as a fold over lines
with an explicit state record, the two format mappers as pure functions into
record types mirroring the Go structs, and the Go-template-to-Jinja translator
as a left-to-right scan applying the module's six regular-expression rewrites.
-/

set_option maxHeartbeats 1000000

deriving instance DecidableEq for Except

namespace Gollama

/-- Go strings, modelled as lists of characters. -/
abbrev Str := List Char

/-- The whitespace class of Go's regexp `\s` (RE2): tab, newline, form feed,
carriage return, space. -/
def isWs (c : Char) : Bool :=
  c = ' ' || c = '\t' || c = '\n' || c = '\r' || c = '\x0c'

/-- The character class recognised by Go's `unicode.IsSpace` (the Unicode
White_Space property), used by `strings.TrimSpace` and friends. -/
def goIsSpace (c : Char) : Bool :=
  c = '\t' || c = '\n' || c = '\x0b' || c = '\x0c' || c = '\r' || c = ' ' ||
  c = '\u0085' || c = '\u00a0' || c = '\u1680' ||
  ('\u2000' ≤ c && c ≤ '\u200a') ||
  c = '\u2028' || c = '\u2029' || c = '\u202f' || c = '\u205f' || c = '\u3000'

/-- Drop the longest run of characters satisfying `p` from the right end. -/
def dropRightWhile (p : Char → Bool) (l : Str) : Str :=
  (l.reverse.dropWhile p).reverse

/-- Model of Go `strings.TrimSpace`. -/
def goTrimSpace (l : Str) : Str :=
  dropRightWhile goIsSpace (l.dropWhile goIsSpace)

/-- Model of Go `strings.HasPrefix`. -/
def goHasPrefix (l pat : Str) : Bool := pat.isPrefixOf l

/-- Model of Go `strings.HasSuffix`. -/
def goHasSuffix (l pat : Str) : Bool := pat.isSuffixOf l

/-- Model of Go `strings.TrimPrefix`. -/
def goTrimPrefix (l pat : Str) : Str :=
  if goHasPrefix l pat then l.drop pat.length else l

/-- Model of Go `strings.TrimSuffix`. -/
def goTrimSuffix (l pat : Str) : Str :=
  if goHasSuffix l pat then l.take (l.length - pat.length) else l

/-- Model of Go `strings.Contains`: `pat` occurs as a contiguous substring. -/
def goContains (l pat : Str) : Bool :=
  l.tails.any fun t => pat.isPrefixOf t

/-- Model of Go `strings.Trim(s, "\"")`: strip all leading and trailing
double-quote characters. -/
def goTrimQuotes (l : Str) : Str :=
  dropRightWhile (fun c => c = '"') (l.dropWhile fun c => c = '"')

/-- Model of Go `strings.Split(s, "\n")`. -/
def splitLines : Str → List Str
  | [] => [[]]
  | c :: cs =>
    match splitLines cs with
    | [] => [[]]
    | r :: rs => if c = '\n' then [] :: r :: rs else (c :: r) :: rs

/-- Model of Go `strings.Join(lines, "\n")`. -/
def joinLines : List Str → Str
  | [] => []
  | [l] => l
  | l :: ls => l ++ '\n' :: joinLines ls

/-- Split at the first space, modelling Go `strings.SplitN(s, " ", 2)`:
`none` when the string holds no space (Go then yields a single part). -/
def splitFirstSpace : Str → Option (Str × Str)
  | [] => none
  | c :: cs =>
    if c = ' ' then some ([], cs)
    else
      match splitFirstSpace cs with
      | none => none
      | some (a, b) => some (c :: a, b)

/-- The intermediate representation extracted from a Modelfile
(Go struct `ParsedModelfile`).  The Go `map[string][]string` is modelled as an
association list with at most one entry per key; Go map lookup of a missing
key yields a nil slice, modelled as `none`. -/
structure ParsedModelfile where
  template : Str
  system : Str
  parameters : List (Str × List Str)
  deriving Repr, DecidableEq

/-- Append `v` to the value list of key `k` (Go
`parsed.Parameters[key] = append(parsed.Parameters[key], value)`). -/
def addParam (ps : List (Str × List Str)) (k : Str) (v : Str) :
    List (Str × List Str) :=
  match ps with
  | [] => [(k, [v])]
  | (k', vs) :: rest =>
    if k' = k then (k', vs ++ [v]) :: rest else (k', vs) :: addParam rest k v

/-- Go map indexing `ps[k]`: `none` models the nil slice of a missing key. -/
def lookupParam (ps : List (Str × List Str)) (k : Str) : Option (List Str) :=
  match ps with
  | [] => none
  | (k', vs) :: rest => if k' = k then some vs else lookupParam rest k

/-- The local state of the line loop inside `ParseOllamaModelfile`. -/
structure PState where
  template : Str
  system : Str
  parameters : List (Str × List Str)
  templateLines : List Str
  systemLines : List Str
  inTemplate : Bool
  inMultilineTemplate : Bool
  inDoubleQuotedTemplate : Bool
  inSystem : Bool
  inMultilineSystem : Bool
  inDoubleQuotedSystem : Bool
  deriving Repr, DecidableEq

/-- The state at the top of the loop in `ParseOllamaModelfile`. -/
def initPState : PState :=
  ⟨[], [], [], [], [], false, false, false, false, false, false⟩

/-- One iteration of the line loop of `ParseOllamaModelfile`, translated
branch by branch from the Go loop body. -/
def stepLine (st : PState) (line : Str) : PState :=
  let trimmed := goTrimSpace line
  if goHasPrefix trimmed "TEMPLATE".data && !st.inTemplate then
    if goContains trimmed "\"\"\"".data then
      let tc := goTrimPrefix trimmed "TEMPLATE ".data
      let tc := goTrimSpace tc
      let tc := if goHasPrefix tc "\"\"\"".data then
        goTrimPrefix tc "\"\"\"".data else tc
      { st with
        inTemplate := true, inMultilineTemplate := true,
        templateLines :=
          if tc ≠ [] then st.templateLines ++ [tc] else st.templateLines }
    else if goHasPrefix trimmed "TEMPLATE \"".data then
      let tc := goTrimPrefix trimmed "TEMPLATE ".data
      let tc := goTrimSpace tc
      let tc := goTrimPrefix tc "\"".data
      if goHasSuffix tc "\"".data then
        { st with template := goTrimSuffix tc "\"".data }
      else
        { st with
          inTemplate := true, inDoubleQuotedTemplate := true,
          templateLines :=
            if tc ≠ [] then st.templateLines ++ [tc] else st.templateLines }
    else st
  else if st.inTemplate then
    if st.inMultilineTemplate && goHasSuffix trimmed "\"\"\"".data then
      let line := goTrimSuffix line "\"\"\"".data
      { st with
        templateLines :=
          if line ≠ [] then st.templateLines ++ [line] else st.templateLines,
        inTemplate := false, inMultilineTemplate := false }
    else if st.inDoubleQuotedTemplate && goHasSuffix trimmed "\"".data then
      let line := goTrimSuffix line "\"".data
      { st with
        templateLines :=
          if line ≠ [] then st.templateLines ++ [line] else st.templateLines,
        inTemplate := false, inDoubleQuotedTemplate := false }
    else
      { st with templateLines := st.templateLines ++ [line] }
  else if goHasPrefix trimmed "SYSTEM".data && !st.inSystem then
    if goContains trimmed "\"\"\"".data then
      let sc := goTrimPrefix trimmed "SYSTEM ".data
      let sc := goTrimSpace sc
      let sc := if goHasPrefix sc "\"\"\"".data then
        goTrimPrefix sc "\"\"\"".data else sc
      { st with
        inSystem := true, inMultilineSystem := true,
        systemLines :=
          if sc ≠ [] then st.systemLines ++ [sc] else st.systemLines }
    else if goHasPrefix trimmed "SYSTEM \"".data then
      let sc := goTrimPrefix trimmed "SYSTEM ".data
      let sc := goTrimSpace sc
      let sc := goTrimPrefix sc "\"".data
      if goHasSuffix sc "\"".data then
        { st with system := goTrimSuffix sc "\"".data }
      else
        { st with
          inSystem := true, inDoubleQuotedSystem := true,
          systemLines :=
            if sc ≠ [] then st.systemLines ++ [sc] else st.systemLines }
    else st
  else if st.inSystem then
    if st.inMultilineSystem && goHasSuffix trimmed "\"\"\"".data then
      let line := goTrimSuffix line "\"\"\"".data
      { st with
        systemLines :=
          if line ≠ [] then st.systemLines ++ [line] else st.systemLines,
        inSystem := false, inMultilineSystem := false }
    else if st.inDoubleQuotedSystem && goHasSuffix trimmed "\"".data then
      let line := goTrimSuffix line "\"".data
      { st with
        systemLines :=
          if line ≠ [] then st.systemLines ++ [line] else st.systemLines,
        inSystem := false, inDoubleQuotedSystem := false }
    else
      { st with systemLines := st.systemLines ++ [line] }
  else if goHasPrefix trimmed "PARAMETER ".data then
    let paramStr := goTrimPrefix trimmed "PARAMETER ".data
    match splitFirstSpace paramStr with
    | none => st
    | some (key, rest) =>
      { st with parameters := addParam st.parameters key (goTrimQuotes rest) }
  else st

/-- The two fix-ups after the loop: a non-empty collected line list overwrites
the corresponding single-line field. -/
def finishParse (st : PState) : ParsedModelfile :=
  { template := if st.templateLines ≠ [] then joinLines st.templateLines
      else st.template,
    system := if st.systemLines ≠ [] then joinLines st.systemLines
      else st.system,
    parameters := st.parameters }

/-- `ParseOllamaModelfile` from `src/lmstudio/export.go`: extract the
`TEMPLATE`, `SYSTEM` and `PARAMETER` directives.  Mirrors the Go signature
`(*ParsedModelfile, error)`; every Go return site carries a nil error, hence
every branch is `Except.ok`. -/
def ParseOllamaModelfile (modelfileContent : Str) :
    Except Str ParsedModelfile :=
  if modelfileContent = [] then
    Except.ok { template := [], system := [], parameters := [] }
  else
    Except.ok (finishParse
      ((splitLines modelfileContent).foldl stepLine initPState))

/-! ## The template translator

`convertGoTemplateToJinja` applies six `regexp.ReplaceAllString` rewrites in a
fixed order.  Each regular expression is a literal-and-whitespace pattern
(`\s` is RE2 whitespace, `isWs`); a pattern is modelled as a list of atoms and
matched by a deterministic scanner. -/

/-- One atom of a translator pattern: a literal character, `\s*`, or `\s+`. -/
inductive Pat where
  | lit (c : Char)
  | wsStar
  | wsPlus
  deriving Repr, DecidableEq

/-- Match a pattern against the front of a string, returning the unconsumed
rest.  `\s*`/`\s+` take the maximal whitespace run, which coincides with RE2
semantics here because in every pattern of the module the next atom is a
non-whitespace literal. -/
def runPat : List Pat → Str → Option Str
  | [], l => some l
  | Pat.lit _ :: _, [] => none
  | Pat.lit c :: ps, d :: l => if d = c then runPat ps l else none
  | Pat.wsStar :: ps, l => runPat ps (l.dropWhile isWs)
  | Pat.wsPlus :: _, [] => none
  | Pat.wsPlus :: ps, d :: l =>
    if isWs d then runPat ps (l.dropWhile isWs) else none

/-- Literal atoms for a string. -/
def litsOf (s : Str) : List Pat := s.map Pat.lit

/-- The pattern shape of the variable rewrites and of the generic branch
close, regexps of the form `{{\s*core\s*}}`. -/
def varSpec (core : Str) : List Pat :=
  [Pat.lit '{', Pat.lit '{', Pat.wsStar] ++ litsOf core ++
    [Pat.wsStar, Pat.lit '}', Pat.lit '}']

/-- The pattern shape of the two branch-open rewrites, regexps of the form
`{{\s*if\s+core\s*}}`. -/
def ifSpec (core : Str) : List Pat :=
  [Pat.lit '{', Pat.lit '{', Pat.wsStar, Pat.lit 'i', Pat.lit 'f',
    Pat.wsPlus] ++ litsOf core ++ [Pat.wsStar, Pat.lit '}', Pat.lit '}']

/-- `reIfSystem`. -/
def specIfSystem : List Pat := ifSpec ".System".data
/-- `reIfPrompt`. -/
def specIfPrompt : List Pat := ifSpec ".Prompt".data
/-- `reEnd`. -/
def specEnd : List Pat := varSpec "end".data
/-- `reSystem`. -/
def specSystem : List Pat := varSpec ".System".data
/-- `rePrompt`. -/
def specPrompt : List Pat := varSpec ".Prompt".data
/-- `reResponse`. -/
def specResponse : List Pat := varSpec ".Response".data

/-- Fuelled left-to-right scan of `regexp.ReplaceAllString`: at each position
try the pattern; on a match emit the replacement and resume after the match,
otherwise copy one character.  The fuel is an upper bound on the number of
steps; `replaceAll` supplies the input length, which suffices because every
pattern of the module consumes at least one character. -/
def goReplF (sp : List Pat) (t : Str) : Nat → Str → Str
  | _, [] => []
  | 0, l => l
  | n + 1, c :: cs =>
    match runPat sp (c :: cs) with
    | some rest => t ++ goReplF sp t n rest
    | none => c :: goReplF sp t n cs

/-- `re.ReplaceAllString(l, t)` for a translator pattern `sp`. -/
def replaceAll (sp : List Pat) (t : Str) (l : Str) : Str :=
  goReplF sp t l.length l

/-- `convertGoTemplateToJinja` from `src/lmstudio/export.go`: the six
rewrites, in source order. -/
def convertGoTemplateToJinja (goTemplate : Str) : Str :=
  replaceAll specResponse "{{ model_response }}".data
    (replaceAll specPrompt "{{ user_message }}".data
      (replaceAll specSystem "{{ system_message }}".data
        (replaceAll specEnd "{% endif %}".data
          (replaceAll specIfPrompt "{% if user_message %}".data
            (replaceAll specIfSystem "{% if system_message %}".data
              goTemplate)))))

/-! ## Token extraction heuristics -/

/-- The Go loop `for _, token := range toks { if pred(token) { return token } }`
followed by `return ""`. -/
def firstTok (pred : Str → Bool) : List Str → Str
  | [] => []
  | t :: ts => if pred t then t else firstTok pred ts

/-- The fixed candidate list of `extractBOSToken`. -/
def bosTokens : List Str :=
  ["[gMASK]".data, "<s>".data, "<|begin_of_text|>".data, "<|im_start|>".data]

/-- The fixed candidate list of `extractEOSToken`. -/
def eosTokens : List Str :=
  ["<|endoftext|>".data, "</s>".data, "<|end_of_text|>".data,
    "<|im_end|>".data, "<|user|>".data]

/-- `extractBOSToken`: first candidate that is a prefix of the template. -/
def extractBOSToken (template : Str) : Str :=
  firstTok (fun tok => goHasPrefix template tok) bosTokens

/-- `extractEOSToken`: first candidate contained in the template. -/
def extractEOSToken (template : Str) : Str :=
  firstTok (fun tok => goContains template tok) eosTokens

/-! ## Models of `strconv.ParseFloat` and `strconv.Atoi`

The standard library is an external collaborator of the module; the two
conversions are modelled by their documented accepted syntax.  A `none`
result models a non-nil Go error (syntax or range), which is the only aspect
the mappers observe (`if err == nil`). -/

/-- The value space of `strconv.ParseFloat`; finite values are kept as exact
rationals (the mappers never compute with them). -/
inductive GoFloat where
  | finite (q : ℚ)
  | posInf
  | negInf
  | nanValue
  deriving Repr, DecidableEq

/-- ASCII lower-casing, as Go uses for the special float spellings. -/
def asciiLower (c : Char) : Char :=
  if 'A' ≤ c && c ≤ 'Z' then Char.ofNat (c.toNat + 32) else c

/-- ASCII decimal digit. -/
def isDigit (c : Char) : Bool := '0' ≤ c && c ≤ '9'

/-- ASCII hexadecimal digit. -/
def isHexDigit (c : Char) : Bool :=
  isDigit c || ('a' ≤ c && c ≤ 'f') || ('A' ≤ c && c ≤ 'F')

/-- Value of a decimal digit. -/
def digitVal (c : Char) : Nat := c.toNat - '0'.toNat

/-- Value of a hexadecimal digit. -/
def hexVal (c : Char) : Nat :=
  if isDigit c then digitVal c else (asciiLower c).toNat - 'a'.toNat + 10

/-- Scan a run of digits in the given base, allowing single underscores
strictly between digits (Go's `underscoreOK` discipline).  Returns the
accumulated value, the number of digits read, and the rest; `none` when an
underscore is misplaced. -/
def digitsLoop (base : Nat) (isD : Char → Bool) (val : Char → Nat) :
    Str → Nat → Nat → Option (Nat × Nat × Str)
  | [], acc, cnt => some (acc, cnt, [])
  | '_' :: cs, acc, cnt =>
    if cnt = 0 then none
    else
      match cs with
      | d :: cs' =>
        if isD d then digitsLoop base isD val cs' (acc * base + val d) (cnt + 1)
        else none
      | [] => none
  | c :: cs, acc, cnt =>
    if isD c then digitsLoop base isD val cs (acc * base + val c) (cnt + 1)
    else some (acc, cnt, c :: cs)

/-- Smallest magnitude rounding to `+Inf` in IEEE-754 binary64; at or above
it `strconv.ParseFloat` reports `ErrRange`. -/
def ovflThreshold : ℚ := 2 ^ 1024 - 2 ^ 970

/-- Pack a finite magnitude, failing on binary64 overflow. -/
def buildFinite (neg : Bool) (q : ℚ) : Option GoFloat :=
  if ovflThreshold ≤ q then none
  else some (GoFloat.finite (if neg then -q else q))

/-- Value of a decimal mantissa `mant` scaled by `10 ^ e`, where the mantissa
has `digits` significant digits (used to bound the magnitude when the
exponent is extreme, keeping the computation feasible). -/
def buildDec (neg : Bool) (mant : Nat) (e : Int) (digits : Nat) :
    Option GoFloat :=
  if mant = 0 then some (GoFloat.finite 0)
  else if 5000 < e then none
  else if e < -(5000 + (digits : Int)) then some (GoFloat.finite 0)
  else if 0 ≤ e then buildFinite neg ((mant : ℚ) * 10 ^ e.toNat)
  else buildFinite neg ((mant : ℚ) / 10 ^ (-e).toNat)

/-- Value of a hexadecimal mantissa `mant` scaled by `2 ^ e`. -/
def buildHex (neg : Bool) (mant : Nat) (e : Int) (digits : Nat) :
    Option GoFloat :=
  if mant = 0 then some (GoFloat.finite 0)
  else if 20000 < e then none
  else if e < -(20000 + 4 * (digits : Int)) then some (GoFloat.finite 0)
  else if 0 ≤ e then buildFinite neg ((mant : ℚ) * 2 ^ e.toNat)
  else buildFinite neg ((mant : ℚ) / 2 ^ (-e).toNat)

/-- Exponent part `(e|E)(+|-)?digits`, applied to the mantissa value. -/
def parseDecExponent (neg : Bool) (mant : Nat) (fc digits : Nat) (r : Str) :
    Option GoFloat :=
  let (eneg, r') := match r with
    | '-' :: r' => (true, r')
    | '+' :: r' => (false, r')
    | r' => (false, r')
  match digitsLoop 10 isDigit digitVal r' 0 0 with
  | some (ev, ec, []) =>
    if ec = 0 then none
    else
      let e : Int := (if eneg then -(ev : Int) else (ev : Int)) - (fc : Int)
      buildDec neg mant e digits
  | _ => none

/-- Decimal form of `strconv.ParseFloat`: `digits[.digits][e(+|-)?digits]`
with at least one mantissa digit. -/
def parseDecFloat (neg : Bool) (r : Str) : Option GoFloat :=
  match digitsLoop 10 isDigit digitVal r 0 0 with
  | none => none
  | some (ip, ic, r1) =>
    let fracStep : Option (Nat × Nat × Str) := match r1 with
      | '.' :: r' => digitsLoop 10 isDigit digitVal r' 0 0
      | _ => some (0, 0, r1)
    match fracStep with
    | none => none
    | some (fp, fc, r2) =>
      if ic + fc = 0 then none
      else
        let mant := ip * 10 ^ fc + fp
        match r2 with
        | [] => buildDec neg mant (-(fc : Int)) (ic + fc)
        | e :: r3 =>
          if e = 'e' || e = 'E' then
            parseDecExponent neg mant fc (ic + fc) r3
          else none

/-- Hexadecimal form of `strconv.ParseFloat` (after the `0x` prefix):
`hexdigits[.hexdigits]p(+|-)?digits`, binary exponent mandatory. -/
def parseHexFloat (neg : Bool) (r : Str) : Option GoFloat :=
  match digitsLoop 16 isHexDigit hexVal r 0 0 with
  | none => none
  | some (ip, ic, r1) =>
    let fracStep : Option (Nat × Nat × Str) := match r1 with
      | '.' :: r' => digitsLoop 16 isHexDigit hexVal r' 0 0
      | _ => some (0, 0, r1)
    match fracStep with
    | none => none
    | some (fp, fc, r2) =>
      if ic + fc = 0 then none
      else
        let mant := ip * 16 ^ fc + fp
        match r2 with
        | p :: r3 =>
          if p = 'p' || p = 'P' then
            let (eneg, r4) := match r3 with
              | '-' :: r' => (true, r')
              | '+' :: r' => (false, r')
              | r' => (false, r')
            match digitsLoop 10 isDigit digitVal r4 0 0 with
            | some (ev, ec, []) =>
              if ec = 0 then none
              else
                let e : Int :=
                  (if eneg then -(ev : Int) else (ev : Int)) - 4 * (fc : Int)
                buildHex neg mant e (ic + fc)
            | _ => none
          else none
        | [] => none

/-- Model of `strconv.ParseFloat(s, 64)` combined with the `err == nil`
check: `none` on a syntax or range error. -/
def goParseFloat (s : Str) : Option GoFloat :=
  match s with
  | [] => none
  | _ =>
    let (neg, rest, sawSign) : Bool × Str × Bool := match s with
      | '-' :: r => (true, r, true)
      | '+' :: r => (false, r, true)
      | r => (false, r, false)
    let low := rest.map asciiLower
    if low = "inf".data || low = "infinity".data then
      some (if neg then GoFloat.negInf else GoFloat.posInf)
    else if !sawSign && low = "nan".data then
      some GoFloat.nanValue
    else
      match rest with
      | '0' :: x :: r' =>
        if x = 'x' || x = 'X' then parseHexFloat neg r'
        else parseDecFloat neg rest
      | _ => parseDecFloat neg rest

/-- A non-empty all-digit run, without underscores. -/
def parsePlainDigits (s : Str) : Option Nat :=
  if s ≠ [] && s.all isDigit then
    some (s.foldl (fun a c => a * 10 + digitVal c) 0)
  else none

/-- Model of `strconv.Atoi` combined with the `err == nil` check (base 10,
64-bit range, no underscores). -/
def goAtoi (s : Str) : Option Int :=
  let (neg, rest) : Bool × Str := match s with
    | '-' :: r => (true, r)
    | '+' :: r => (false, r)
    | r => (false, r)
  match parsePlainDigits rest with
  | none => none
  | some n =>
    let v : Int := if neg then -(n : Int) else (n : Int)
    if v < -(2 ^ 63) || 2 ^ 63 - 1 < v then none else some v

/-! ## The target documents -/

/-- `ContentConfig`. -/
structure ContentConfig where
  type : Str
  deriving Repr, DecidableEq

/-- `MessagesConfig`. -/
structure MessagesConfig where
  contentConfig : ContentConfig
  deriving Repr, DecidableEq

/-- `InputConfig`. -/
structure InputConfig where
  messagesConfig : MessagesConfig
  useTools : Bool
  deriving Repr, DecidableEq

/-- `JinjaTemplateDetails`. -/
structure JinjaTemplateDetails where
  template : Str
  bosToken : Str
  eosToken : Str
  inputConfig : InputConfig
  deriving Repr, DecidableEq

/-- `JinjaPromptTemplate`.  Its `StopStrings` is a Go `[]string`; `none`
models the nil slice, which `encoding/json` serialises as `null` rather than
as the empty list `[]`. -/
structure JinjaPromptTemplate where
  type : Str
  jinjaPromptTemplate : JinjaTemplateDetails
  stopStrings : Option (List Str)
  deriving Repr, DecidableEq

/-- `ManualPromptTemplate`. -/
structure ManualPromptTemplate where
  beforeSystem : Str
  afterSystem : Str
  beforeUser : Str
  afterUser : Str
  beforeAssistant : Str
  afterAssistant : Str
  deriving Repr, DecidableEq

/-- `ManualPromptTemplateValue` (its stop-string list is built non-nil). -/
structure ManualPromptTemplateValue where
  type : Str
  stopStrings : List Str
  manualPromptTemplate : ManualPromptTemplate
  deriving Repr, DecidableEq

/-- The runtime type of a field value (Go `interface{}`). -/
inductive FieldValue where
  | float (v : GoFloat)
  | int (n : Int)
  | str (s : Str)
  | strList (l : List Str)
  | jinja (t : JinjaPromptTemplate)
  | manual (t : ManualPromptTemplateValue)
  deriving Repr, DecidableEq

/-- `ConfigField`. -/
structure ConfigField where
  key : Str
  value : FieldValue
  deriving Repr, DecidableEq

/-- `PredictionConfig`. -/
structure PredictionConfig where
  fields : List ConfigField
  deriving Repr, DecidableEq

/-- `LoadModelConfig`. -/
structure LoadModelConfig where
  fields : List ConfigField
  deriving Repr, DecidableEq

/-- `LMStudioConfig`, the flat document. -/
structure LMStudioConfig where
  predictionConfig : PredictionConfig
  loadModelConfig : LoadModelConfig
  deriving Repr, DecidableEq

/-- `PresetField`. -/
structure PresetField where
  key : Str
  value : FieldValue
  deriving Repr, DecidableEq

/-- `PresetOperation`. -/
structure PresetOperation where
  fields : List PresetField
  deriving Repr, DecidableEq

/-- `PresetLoad`. -/
structure PresetLoad where
  fields : List PresetField
  deriving Repr, DecidableEq

/-- `LMStudioPreset`, the preset document. -/
structure LMStudioPreset where
  identifier : Str
  name : Str
  changed : Bool
  operation : PresetOperation
  load : PresetLoad
  deriving Repr, DecidableEq

/-! ## Format mapper: flat document -/

/-- The field (zero or one) that one iteration of the parameter loop of
`ConvertToLMStudioFormat` appends to the prediction group: the first value of
the parameter is coerced per the fixed table, and a coercion failure or an
unknown name contributes nothing.  The Go `range` over the parameter map
visits each key once in unspecified order; the model visits the association
list in insertion order (none of the verified properties depends on field
order). -/
def paramPredFields (kv : Str × List Str) : List ConfigField :=
  let (paramKey, values) := kv
  if paramKey = "stop".data then []
  else
    match values with
    | [] => []
    | value :: _ =>
      if paramKey = "temperature".data then
        match goParseFloat value with
        | some temp =>
          [⟨"llm.prediction.temperature".data, FieldValue.float temp⟩]
        | none => []
      else if paramKey = "top_p".data then
        match goParseFloat value with
        | some topP => [⟨"llm.prediction.topP".data, FieldValue.float topP⟩]
        | none => []
      else if paramKey = "top_k".data then
        match goAtoi value with
        | some topK => [⟨"llm.prediction.topK".data, FieldValue.int topK⟩]
        | none => []
      else if paramKey = "repeat_penalty".data then
        match goParseFloat value with
        | some penalty =>
          [⟨"llm.prediction.repeatPenalty".data, FieldValue.float penalty⟩]
        | none => []
      else if paramKey = "min_p".data then
        match goParseFloat value with
        | some minP => [⟨"llm.prediction.minP".data, FieldValue.float minP⟩]
        | none => []
      else []

/-- The field (zero or one) that one iteration of the parameter loop appends
to the load-time group: only a coercible `num_ctx` contributes. -/
def paramLoadFields (kv : Str × List Str) : List ConfigField :=
  let (paramKey, values) := kv
  if paramKey = "num_ctx".data then
    match values with
    | [] => []
    | value :: _ =>
      match goAtoi value with
      | some ctx => [⟨"llm.load.contextLength".data, FieldValue.int ctx⟩]
      | none => []
  else []

/-- One iteration of the parameter loop of `ConvertToLMStudioFormat`. -/
def applyParam (acc : List ConfigField × List ConfigField)
    (kv : Str × List Str) : List ConfigField × List ConfigField :=
  (acc.1 ++ paramPredFields kv, acc.2 ++ paramLoadFields kv)

/-- `ConvertToLMStudioFormat` from `src/lmstudio/export.go`.  The Go function
always returns a nil error. -/
def ConvertToLMStudioFormat (parsed : ParsedModelfile) :
    Except Str LMStudioConfig :=
  let basePred : List ConfigField :=
    if parsed.template ≠ [] then
      [⟨"llm.prediction.promptTemplate".data, FieldValue.jinja
        { type := "jinja".data,
          jinjaPromptTemplate :=
            { template := convertGoTemplateToJinja parsed.template,
              bosToken := extractBOSToken parsed.template,
              eosToken := extractEOSToken parsed.template,
              inputConfig :=
                { messagesConfig := { contentConfig := { type := "string".data } },
                  useTools := false } },
          stopStrings := lookupParam parsed.parameters "stop".data }⟩]
    else []
  let (pred, load) := parsed.parameters.foldl applyParam (basePred, [])
  Except.ok { predictionConfig := ⟨pred⟩, loadModelConfig := ⟨load⟩ }

/-! ## Format mapper: preset document -/

/-- `ConvertToLMStudioPreset` from `src/lmstudio/export.go`.  The Go function
always returns a nil error. -/
def ConvertToLMStudioPreset (parsed : ParsedModelfile) (modelName : Str) :
    Except Str LMStudioPreset :=
  let identifier := "@local:".data ++
    ((modelName.map fun c => if c = ' ' then '-' else c).map Char.toLower)
  let base : LMStudioPreset :=
    { identifier := identifier, name := modelName, changed := true,
      operation := ⟨[]⟩, load := ⟨[]⟩ }
  if parsed.template = [] then Except.ok base
  else
    let template := parsed.template
    let bosToken := extractBOSToken template
    let stopStrings := (lookupParam parsed.parameters "stop".data).getD []
    let beforeSystem := if goContains template "<|system|>".data then
      bosToken ++ "<|system|>\n".data else []
    let afterSystem : Str := []
    let beforeUser := if goContains template "<|user|>".data then
      "<|user|>\n".data else []
    let afterUser0 := if goContains template "<|assistant|>".data then
      "<|assistant|>\n".data else []
    let hasThinkTags := goContains template "<think></think>".data
    let afterUser := if hasThinkTags then
      afterUser0 ++ "<think></think>\n".data else afterUser0
    let templateValue : ManualPromptTemplateValue :=
      { type := "manual".data, stopStrings := [],
        manualPromptTemplate :=
          { beforeSystem := beforeSystem, afterSystem := afterSystem,
            beforeUser := beforeUser, afterUser := afterUser,
            beforeAssistant := [], afterAssistant := [] } }
    let fields :=
      [⟨"llm.prediction.promptTemplate".data,
        FieldValue.manual templateValue⟩,
       ⟨"llm.prediction.stopStrings".data, FieldValue.strList stopStrings⟩]
    let fields := if parsed.system ≠ [] && !hasThinkTags then
      fields ++ [⟨"llm.prediction.systemPrompt".data,
        FieldValue.str parsed.system⟩]
      else fields
    Except.ok { base with operation := ⟨fields⟩ }

/-! ## Supporting lemmas -/

/-- The parameter loop is append-only: folding it from an accumulator
concatenates the per-parameter contributions in visit order. -/
theorem foldl_applyParam (ps : List (Str × List Str))
    (acc : List ConfigField × List ConfigField) :
    ps.foldl applyParam acc =
      (acc.1 ++ ps.flatMap paramPredFields,
        acc.2 ++ ps.flatMap paramLoadFields) := by
  induction ps generalizing acc with
  | nil => simp
  | cons kv rest ih =>
    simp [List.foldl_cons, ih, applyParam, List.flatMap_cons,
      List.append_assoc]

/-- `ConvertToLMStudioFormat` in closed form, when a template is present. -/
theorem convertToLMStudioFormat_eq (parsed : ParsedModelfile)
    (hT : parsed.template ≠ []) :
    ConvertToLMStudioFormat parsed = Except.ok
      { predictionConfig := ⟨⟨"llm.prediction.promptTemplate".data,
          FieldValue.jinja
            { type := "jinja".data,
              jinjaPromptTemplate :=
                { template := convertGoTemplateToJinja parsed.template,
                  bosToken := extractBOSToken parsed.template,
                  eosToken := extractEOSToken parsed.template,
                  inputConfig :=
                    { messagesConfig :=
                        { contentConfig := { type := "string".data } },
                      useTools := false } },
              stopStrings := lookupParam parsed.parameters "stop".data }⟩ ::
          parsed.parameters.flatMap paramPredFields⟩,
        loadModelConfig := ⟨parsed.parameters.flatMap paramLoadFields⟩ } := by
  unfold ConvertToLMStudioFormat
  simp only [if_pos hT, foldl_applyParam]
  rfl

/-! ## C3: the parser is total and never reports an error -/

/-- C3: for every input string, `ParseOllamaModelfile` returns a parsed
result with a nil error; absent or unterminated directives can only leave
fields empty or partial, never cause a failure. -/
theorem parseOllamaModelfile_never_fails (s : Str) :
    ∃ p : ParsedModelfile, ParseOllamaModelfile s = Except.ok p := by
  unfold ParseOllamaModelfile
  split
  · exact ⟨_, rfl⟩
  · exact ⟨_, rfl⟩

/-! ## C5: the two spec examples of the template translator -/

/-- C5: the translator maps the spec's two example inputs exactly. -/
theorem convertGoTemplateToJinja_spec_examples :
    convertGoTemplateToJinja "{{ .Prompt }}".data = "{{ user_message }}".data ∧
    convertGoTemplateToJinja
        "{{ if .System }}System: {{ .System }}{{ end }} User: {{ .Prompt }}".data =
      "{% if system_message %}System: {{ system_message }}{% endif %} User: {{ user_message }}".data :=
  ⟨by decide, by decide⟩

/-! ## C1: the flat mapper's stop-sequence field for an absent `stop` entry

The claim states the field is the empty list.  The code stores the raw map
lookup `parsed.Parameters["stop"]`, which is the nil slice when the key is
absent, and `encoding/json` serialises a nil slice as `null`, not `[]` (the
preset mapper normalises nil to an empty slice; the flat mapper does not). -/

/-- C1 counterexample: for the Parsed Directives value with template
`{{ .Prompt }}` and no parameters, the emitted template object's
stop-sequence field is the nil/null value, which is not the empty list. -/
theorem convertToLMStudioFormat_stop_absent_counterexample :
    ConvertToLMStudioFormat ⟨"{{ .Prompt }}".data, [], []⟩ =
      Except.ok ⟨⟨[⟨"llm.prediction.promptTemplate".data, FieldValue.jinja
        ⟨"jinja".data, ⟨"{{ user_message }}".data, [], [],
          ⟨⟨⟨"string".data⟩⟩, false⟩⟩, none⟩⟩]⟩, ⟨[]⟩⟩ ∧
    (none : Option (List Str)) ≠ some [] :=
  ⟨by decide, by decide⟩

/-- C1 amended: for every Parsed Directives value with a non-empty template
whose parameter map has no `stop` entry, the structured template object added
to the prediction group carries the nil slice (serialised as JSON `null`),
not an empty list, as its stop-sequence field. -/
theorem convertToLMStudioFormat_stop_absent_nil (parsed : ParsedModelfile)
    (hT : parsed.template ≠ [])
    (hs : lookupParam parsed.parameters "stop".data = none) :
    ConvertToLMStudioFormat parsed = Except.ok
      ⟨⟨⟨"llm.prediction.promptTemplate".data, FieldValue.jinja
        ⟨"jinja".data, ⟨convertGoTemplateToJinja parsed.template,
          extractBOSToken parsed.template, extractEOSToken parsed.template,
          ⟨⟨⟨"string".data⟩⟩, false⟩⟩, none⟩⟩ ::
          parsed.parameters.flatMap paramPredFields⟩,
        ⟨parsed.parameters.flatMap paramLoadFields⟩⟩ := by
  have h := convertToLMStudioFormat_eq parsed hT
  rw [hs] at h
  exact h

/-- Witness for the amended C1 theorem at a concrete input. -/
theorem convertToLMStudioFormat_stop_absent_nil_witness :
    ConvertToLMStudioFormat ⟨"{{ .Prompt }}".data, "s".data,
        [("temperature".data, ["0.5".data])]⟩ = Except.ok
      ⟨⟨⟨"llm.prediction.promptTemplate".data, FieldValue.jinja
        ⟨"jinja".data, ⟨convertGoTemplateToJinja "{{ .Prompt }}".data,
          extractBOSToken "{{ .Prompt }}".data,
          extractEOSToken "{{ .Prompt }}".data,
          ⟨⟨⟨"string".data⟩⟩, false⟩⟩, none⟩⟩ ::
          [("temperature".data, ["0.5".data])].flatMap paramPredFields⟩,
        ⟨[("temperature".data, ["0.5".data])].flatMap paramLoadFields⟩⟩ :=
  convertToLMStudioFormat_stop_absent_nil _ (by decide) (by decide)

/-! ## C2: the preset's system-prompt field -/

/-- C2: for a non-empty template, the preset contains the field
`llm.prediction.systemPrompt` valued at the literal system string exactly
when the system string is non-empty and the template does not contain the
empty-reasoning marker pair. -/
theorem convertToLMStudioPreset_systemPrompt_iff (parsed : ParsedModelfile)
    (name : Str) (preset : LMStudioPreset)
    (hT : parsed.template ≠ [])
    (hp : ConvertToLMStudioPreset parsed name = Except.ok preset) :
    ((⟨"llm.prediction.systemPrompt".data, FieldValue.str parsed.system⟩ :
        PresetField) ∈ preset.operation.fields) ↔
      (parsed.system ≠ [] ∧
        goContains parsed.template "<think></think>".data = false) := by
  unfold ConvertToLMStudioPreset at hp
  rw [if_neg hT] at hp
  simp only [Except.ok.injEq] at hp
  subst hp
  by_cases hs : parsed.system = [] <;>
    by_cases ht : goContains parsed.template "<think></think>".data = true <;>
      simp [hs, ht, PresetField.mk.injEq]

/-- Witness for the C2 theorem at concrete inputs: with system `s` and a
template free of the marker pair the field is present; the marker pair
example is exercised by evaluating the hypothesis side. -/
theorem convertToLMStudioPreset_systemPrompt_iff_witness :
    ((⟨"llm.prediction.systemPrompt".data, FieldValue.str "s".data⟩ :
        PresetField) ∈
      (⟨"@local:m".data, "m".data, true,
        ⟨[⟨"llm.prediction.promptTemplate".data, FieldValue.manual
            ⟨"manual".data, [], ⟨[], [], [], [], [], []⟩⟩⟩,
          ⟨"llm.prediction.stopStrings".data, FieldValue.strList []⟩,
          ⟨"llm.prediction.systemPrompt".data, FieldValue.str "s".data⟩]⟩,
        ⟨[]⟩⟩ : LMStudioPreset).operation.fields) :=
  (convertToLMStudioPreset_systemPrompt_iff ⟨"x".data, "s".data, []⟩
    "m".data _ (by decide) (by decide)).mpr (by decide)

/-! ## C10: the preset depends on nothing but template, system and `stop` -/

/-- The load-time field group of a conversion result. -/
def presetLoadFields (r : Except Str LMStudioPreset) : List PresetField :=
  match r with
  | Except.ok p => p.load.fields
  | Except.error _ => []

/-- The prediction-group keys of a conversion result. -/
def presetOpKeys (r : Except Str LMStudioPreset) : List Str :=
  match r with
  | Except.ok p => p.operation.fields.map PresetField.key
  | Except.error _ => []

/-- C10: two Parsed Directives values agreeing on template, system and the
`stop` list produce identical presets; the load group is always empty; every
prediction-group key is the prompt-template, stop-strings or system-prompt
key, so numeric parameters never appear in a preset document. -/
theorem convertToLMStudioPreset_noninterference (p₁ p₂ : ParsedModelfile)
    (name : Str)
    (h1 : p₁.template = p₂.template) (h2 : p₁.system = p₂.system)
    (h3 : (lookupParam p₁.parameters "stop".data).getD [] =
      (lookupParam p₂.parameters "stop".data).getD []) :
    ConvertToLMStudioPreset p₁ name = ConvertToLMStudioPreset p₂ name ∧
    presetLoadFields (ConvertToLMStudioPreset p₁ name) = [] ∧
    ((presetOpKeys (ConvertToLMStudioPreset p₁ name)).all fun k =>
      ([ "llm.prediction.promptTemplate".data,
         "llm.prediction.stopStrings".data,
         "llm.prediction.systemPrompt".data ] : List Str).contains k) =
      true := by
  refine ⟨?_, ?_, ?_⟩
  · unfold ConvertToLMStudioPreset
    rw [h1, h2, h3]
  · unfold ConvertToLMStudioPreset presetLoadFields
    by_cases ht : p₁.template = [] <;> simp [ht]
  · unfold ConvertToLMStudioPreset presetOpKeys
    by_cases ht : p₁.template = [] <;>
      by_cases hs : p₁.system = [] <;>
        by_cases hth : goContains p₁.template "<think></think>".data =
          true <;>
          simp [ht, hs, hth, List.contains]

/-- Witness for the C10 theorem at concrete inputs. -/
theorem convertToLMStudioPreset_noninterference_witness :
    ConvertToLMStudioPreset ⟨"x".data, "s".data,
        [("temperature".data, ["0.5".data])]⟩ "m".data =
      ConvertToLMStudioPreset ⟨"x".data, "s".data,
        [("num_ctx".data, ["4096".data])]⟩ "m".data ∧
    presetLoadFields (ConvertToLMStudioPreset ⟨"x".data, "s".data,
      [("temperature".data, ["0.5".data])]⟩ "m".data) = [] ∧
    ((presetOpKeys (ConvertToLMStudioPreset ⟨"x".data, "s".data,
        [("temperature".data, ["0.5".data])]⟩ "m".data)).all fun k =>
      ([ "llm.prediction.promptTemplate".data,
         "llm.prediction.stopStrings".data,
         "llm.prediction.systemPrompt".data ] : List Str).contains k) =
      true :=
  convertToLMStudioPreset_noninterference _ _ _ (by decide) (by decide)
    (by decide)

/-! ## C6: the token-derivation heuristics -/

/-- The Go first-match loop is `List.find?` with a default. -/
theorem firstTok_eq_find (pred : Str → Bool) (l : List Str) :
    firstTok pred l = (l.find? pred).getD [] := by
  induction l with
  | nil => rfl
  | cons t ts ih =>
    by_cases h : pred t = true <;> simp [firstTok, List.find?_cons, h, ih]

/-- C6: the start-of-sequence token is the first element of the fixed
candidate list that is a prefix of the template (empty if none); the
end-of-sequence token is the first element of the other fixed list contained
in the template (empty if none); in particular a template containing the
role marker `<|user|>` but none of the four true end markers is assigned
`<|user|>` as its end-of-sequence token. -/
theorem extract_tokens_spec (t : Str) :
    extractBOSToken t =
      (([ "[gMASK]".data, "<s>".data, "<|begin_of_text|>".data,
          "<|im_start|>".data ] : List Str).find? fun tok =>
        goHasPrefix t tok).getD [] ∧
    extractEOSToken t =
      (([ "<|endoftext|>".data, "</s>".data, "<|end_of_text|>".data,
          "<|im_end|>".data, "<|user|>".data ] : List Str).find? fun tok =>
        goContains t tok).getD [] ∧
    (goContains t "<|user|>".data = true →
      goContains t "<|endoftext|>".data = false →
      goContains t "</s>".data = false →
      goContains t "<|end_of_text|>".data = false →
      goContains t "<|im_end|>".data = false →
      extractEOSToken t = "<|user|>".data) := by
  refine ⟨firstTok_eq_find _ _, firstTok_eq_find _ _, ?_⟩
  intro h1 h2 h3 h4 h5
  simp [extractEOSToken, eosTokens, firstTok, h1, h2, h3, h4, h5]

/-- Witness for the C6 theorem: a template that contains the role marker and
no true end marker receives the role marker as its end-of-sequence token. -/
theorem extract_tokens_spec_witness :
    extractEOSToken "<|user|>{{ .Prompt }}".data = "<|user|>".data :=
  (extract_tokens_spec "<|user|>{{ .Prompt }}".data).2.2 (by decide)
    (by decide) (by decide) (by decide) (by decide)

/-! ## C8: non-numeric parameter values are dropped silently -/

/-- All field keys of a flat-document conversion result. -/
def flatDocKeys (r : Except Str LMStudioConfig) : List Str :=
  match r with
  | Except.ok c => c.predictionConfig.fields.map ConfigField.key ++
      c.loadModelConfig.fields.map ConfigField.key
  | Except.error _ => []

/-- The numeric-coercion table of the flat mapper: parameter name, emitted
field key, and whether the coercion is float (`true`) or integer. -/
def numericParamTable : List (Str × Str × Bool) :=
  [("temperature".data, "llm.prediction.temperature".data, true),
   ("top_p".data, "llm.prediction.topP".data, true),
   ("top_k".data, "llm.prediction.topK".data, false),
   ("repeat_penalty".data, "llm.prediction.repeatPenalty".data, true),
   ("min_p".data, "llm.prediction.minP".data, true),
   ("num_ctx".data, "llm.load.contextLength".data, false)]

/-- `ConvertToLMStudioFormat` in closed form, for any input. -/
theorem convertToLMStudioFormat_closed (parsed : ParsedModelfile) :
    ConvertToLMStudioFormat parsed = Except.ok
      ⟨⟨(if parsed.template ≠ [] then
          [⟨"llm.prediction.promptTemplate".data, FieldValue.jinja
            ⟨"jinja".data, ⟨convertGoTemplateToJinja parsed.template,
              extractBOSToken parsed.template, extractEOSToken parsed.template,
              ⟨⟨⟨"string".data⟩⟩, false⟩⟩,
              lookupParam parsed.parameters "stop".data⟩⟩]
          else []) ++ parsed.parameters.flatMap paramPredFields⟩,
        ⟨parsed.parameters.flatMap paramLoadFields⟩⟩ := by
  unfold ConvertToLMStudioFormat
  by_cases hT : parsed.template = [] <;> simp [hT, foldl_applyParam]

/-- A prediction-group contribution always comes from a row of the coercion
table whose parameter name is the entry's key. -/
theorem paramPredFields_mem (kv : Str × List Str) (f : ConfigField)
    (hf : f ∈ paramPredFields kv) :
    ∃ x ∈ numericParamTable, kv.1 = x.1 ∧ f.key = x.2.1 := by
  obtain ⟨k, vals⟩ := kv
  unfold paramPredFields at hf
  dsimp only at hf
  split at hf
  · simp at hf
  · split at hf
    · simp at hf
    · split at hf
      · split at hf <;> simp_all [numericParamTable]
      · split at hf
        · split at hf <;> simp_all [numericParamTable]
        · split at hf
          · split at hf <;> simp_all [numericParamTable]
          · split at hf
            · split at hf <;> simp_all [numericParamTable]
            · split at hf
              · split at hf <;> simp_all [numericParamTable]
              · simp at hf

/-- A load-group contribution always comes from the `num_ctx` row. -/
theorem paramLoadFields_mem (kv : Str × List Str) (f : ConfigField)
    (hf : f ∈ paramLoadFields kv) :
    ∃ x ∈ numericParamTable, kv.1 = x.1 ∧ f.key = x.2.1 := by
  obtain ⟨k, vals⟩ := kv
  unfold paramLoadFields at hf
  dsimp only at hf
  split at hf
  · split at hf
    · simp at hf
    · split at hf <;> simp_all [numericParamTable]
  · simp at hf

/-- When the first value of a table parameter fails its coercion, the
parameter contributes no field to either group. -/
theorem paramFields_of_fail (name key : Str) (isFloat : Bool)
    (htab : (name, key, isFloat) ∈ numericParamTable)
    (v : Str) (vs : List Str)
    (hfail : (if isFloat then (goParseFloat v).isNone
      else (goAtoi v).isNone) = true) :
    paramPredFields (name, v :: vs) = [] ∧
      paramLoadFields (name, v :: vs) = [] := by
  fin_cases htab <;>
    simp_all [paramPredFields, paramLoadFields, Option.isNone_iff_eq_none]

/-- With a `Nodup` key list (the Go map invariant), every entry sharing the
looked-up key carries the looked-up value list. -/
theorem lookupParam_nodup_unique (ps : List (Str × List Str)) (k : Str)
    (hnd : (ps.map Prod.fst).Nodup) (l : List Str)
    (h : lookupParam ps k = some l) :
    ∀ kv ∈ ps, kv.1 = k → kv.2 = l := by
  induction ps with
  | nil => simp
  | cons hd tl ih =>
    obtain ⟨k', vs⟩ := hd
    simp only [List.map_cons, List.nodup_cons] at hnd
    intro kv hkv hk
    unfold lookupParam at h
    rcases List.mem_cons.mp hkv with heq | hmem
    · subst heq
      simp only at hk
      rw [if_pos hk] at h
      simpa using Option.some.inj h
    · by_cases hkk : k' = k
      · exfalso
        apply hnd.1
        rw [hkk, ← hk]
        exact List.mem_map_of_mem Prod.fst hmem
      · rw [if_neg hkk] at h
        exact ih hnd.2 h kv hmem hk

/-- C8: when the first value of a numeric parameter is non-numeric text, the
conversion still succeeds and the resulting document carries no field for
that parameter in either group. -/
theorem convertToLMStudioFormat_drops_nonnumeric (parsed : ParsedModelfile)
    (name key : Str) (isFloat : Bool) (v : Str) (vs : List Str)
    (hnd : (parsed.parameters.map Prod.fst).Nodup)
    (htab : (name, key, isFloat) ∈ numericParamTable)
    (hv : lookupParam parsed.parameters name = some (v :: vs))
    (hfail : (if isFloat then (goParseFloat v).isNone
      else (goAtoi v).isNone) = true) :
    (ConvertToLMStudioFormat parsed).isOk = true ∧
    key ∉ flatDocKeys (ConvertToLMStudioFormat parsed) := by
  rw [convertToLMStudioFormat_closed]
  refine ⟨rfl, ?_⟩
  intro hmem
  have keyInj : ∀ x ∈ numericParamTable, ∀ y ∈ numericParamTable,
      x.2.1 = y.2.1 → x.1 = y.1 := by decide
  have keyNotTmpl : ∀ x ∈ numericParamTable,
      x.2.1 ≠ "llm.prediction.promptTemplate".data := by decide
  have hfromEntry : ∃ kv ∈ parsed.parameters, ∃ f,
      (f ∈ paramPredFields kv ∨ f ∈ paramLoadFields kv) ∧ f.key = key := by
    simp only [flatDocKeys, List.mem_append] at hmem
    rcases hmem with h1 | h2
    · obtain ⟨f, hf, hfk⟩ := List.mem_map.mp h1
      rcases List.mem_append.mp hf with hbase | hflat
      · exfalso
        by_cases ht : parsed.template = []
        · simp [ht] at hbase
        · rw [if_pos ht] at hbase
          apply keyNotTmpl (name, key, isFloat) htab
          rcases List.mem_singleton.mp hbase with rfl
          exact hfk.symm
      · obtain ⟨kv, hkv, hfkv⟩ := List.mem_flatMap.mp hflat
        exact ⟨kv, hkv, f, Or.inl hfkv, hfk⟩
    · obtain ⟨f, hf, hfk⟩ := List.mem_map.mp h2
      obtain ⟨kv, hkv, hfkv⟩ := List.mem_flatMap.mp hf
      exact ⟨kv, hkv, f, Or.inr hfkv, hfk⟩
  obtain ⟨kv, hkv, f, hfkv, hfk⟩ := hfromEntry
  have hname : kv.1 = name := by
    rcases hfkv with hpred | hload
    · obtain ⟨x, hx, hx1, hx2⟩ := paramPredFields_mem kv f hpred
      have := keyInj x hx (name, key, isFloat) htab (by rw [← hx2, hfk])
      rw [hx1, this]
    · obtain ⟨x, hx, hx1, hx2⟩ := paramLoadFields_mem kv f hload
      have := keyInj x hx (name, key, isFloat) htab (by rw [← hx2, hfk])
      rw [hx1, this]
  have hvals : kv.2 = v :: vs :=
    lookupParam_nodup_unique parsed.parameters name hnd (v :: vs) hv kv
      hkv hname
  have hempty := paramFields_of_fail name key isFloat htab v vs hfail
  have hkveq : kv = (name, v :: vs) := Prod.ext hname hvals
  rcases hfkv with hpred | hload
  · rw [hkveq, hempty.1] at hpred
    exact absurd hpred (List.not_mem_nil f)
  · rw [hkveq, hempty.2] at hload
    exact absurd hload (List.not_mem_nil f)

/-- Witness for the C8 theorem: `temperature abc` yields no temperature
field and no error. -/
theorem convertToLMStudioFormat_drops_nonnumeric_witness :
    (ConvertToLMStudioFormat ⟨[], [],
      [("temperature".data, ["abc".data])]⟩).isOk = true ∧
    "llm.prediction.temperature".data ∉ flatDocKeys
      (ConvertToLMStudioFormat ⟨[], [],
        [("temperature".data, ["abc".data])]⟩) :=
  convertToLMStudioFormat_drops_nonnumeric
    ⟨[], [], [("temperature".data, ["abc".data])]⟩ "temperature".data
    "llm.prediction.temperature".data true "abc".data []
    (by decide) (by decide) (by decide) (by decide)

/-! ## C7: repeated parameters accumulate in first-seen order -/

/-- The parameter map of a parse result. -/
def parsedParameters (r : Except Str ParsedModelfile) :
    List (Str × List Str) :=
  match r with
  | Except.ok p => p.parameters
  | Except.error _ => []

/-- The system string of a parse result. -/
def parsedSystem (r : Except Str ParsedModelfile) : Str :=
  match r with
  | Except.ok p => p.system
  | Except.error _ => []

/-- `splitLines` never returns the empty list. -/
theorem splitLines_ne_nil (l : Str) : splitLines l ≠ [] := by
  cases l with
  | nil => simp [splitLines]
  | cons c cs =>
    rw [splitLines]
    rcases h : splitLines cs with _ | ⟨r, rs⟩
    · simp
    · dsimp only
      split <;> simp

/-- A newline-free string splits into a single line. -/
theorem splitLines_no_newline (l : Str) (h : '\n' ∉ l) :
    splitLines l = [l] := by
  induction l with
  | nil => rfl
  | cons c cs ih =>
    simp only [List.mem_cons, not_or] at h
    have hc : ¬(c = '\n') := fun hh => h.1 hh.symm
    rw [splitLines, ih h.2]
    simp [hc]

/-- Splitting after a newline-free first segment peels it off. -/
theorem splitLines_append_newline (a b : Str) (h : '\n' ∉ a) :
    splitLines (a ++ '\n' :: b) = a :: splitLines b := by
  induction a with
  | nil =>
    rw [List.nil_append, splitLines]
    rcases hb : splitLines b with _ | ⟨r, rs⟩
    · exact absurd hb (splitLines_ne_nil b)
    · simp
  | cons c cs ih =>
    simp only [List.mem_cons, not_or] at h
    have hc : ¬(c = '\n') := fun hh => h.1 hh.symm
    rw [List.cons_append, splitLines, ih h.2]
    simp [hc]

/-- `splitLines` inverts `joinLines` on non-empty newline-free line lists. -/
theorem splitLines_joinLines (ls : List Str) (h : ls ≠ [])
    (hnl : ∀ l ∈ ls, '\n' ∉ l) : splitLines (joinLines ls) = ls := by
  induction ls with
  | nil => exact absurd rfl h
  | cons l rest ih =>
    match rest with
    | [] => exact splitLines_no_newline l (hnl l (by simp))
    | r :: rs =>
      rw [joinLines, splitLines_append_newline _ _ (hnl l (by simp))]
      · rw [ih (List.cons_ne_nil r rs)
          fun x hx => hnl x (List.mem_cons_of_mem l hx)]
      · exact List.cons_ne_nil r rs

/-- Joining at least two lines yields a non-empty string. -/
theorem joinLines_ne_nil_of_two (ls : List Str) (h : 2 ≤ ls.length) :
    joinLines ls ≠ [] := by
  match ls with
  | [] => simp at h
  | [l] => simp at h
  | a :: b :: t =>
    rw [joinLines]
    · simp
    · exact List.cons_ne_nil b t

/-- Looking up the key just appended to the parameter map yields the old
list (empty when the key was absent) extended by the new value. -/
theorem lookupParam_addParam_self (ps : List (Str × List Str)) (k v : Str) :
    lookupParam (addParam ps k v) k =
      some ((lookupParam ps k).getD [] ++ [v]) := by
  induction ps with
  | nil => simp [addParam, lookupParam]
  | cons hd tl ih =>
    obtain ⟨k', vs⟩ := hd
    by_cases hk : k' = k
    · simp [addParam, lookupParam, hk]
    · simp [addParam, lookupParam, hk, ih]

/-- A line that is already trimmed, matches no `TEMPLATE`/`SYSTEM` prefix,
and parses as a `PARAMETER` directive is processed, outside both capture
states, by appending its value to the named parameter's list. -/
theorem stepLine_param_line (st : PState) (line key value : Str)
    (hT : st.inTemplate = false) (hS : st.inSystem = false)
    (h1 : goTrimSpace line = line)
    (h2 : goHasPrefix line "TEMPLATE".data = false)
    (h3 : goHasPrefix line "SYSTEM".data = false)
    (h4 : goHasPrefix line "PARAMETER ".data = true)
    (h5 : splitFirstSpace (goTrimPrefix line "PARAMETER ".data) =
      some (key, value)) :
    stepLine st line =
      { st with parameters :=
          addParam st.parameters key (goTrimQuotes value) } := by
  unfold stepLine
  simp only [h1, h2, h3, h4, h5, hT, hS, Bool.false_and, Bool.not_false,
    if_false, if_true, Bool.false_eq_true, reduceIte]

/-- C7: a directive source built of a `PARAMETER stop "A"` line, a later
`PARAMETER stop "B"` line, and surrounding lines that leave the parser
outside both capture states at those two lines and contribute no `stop`
values of their own, parses to the list `["A", "B"]` under key `stop`. -/
theorem parse_stop_params_in_order (L1 L2 L3 : List Str)
    (hnl : ∀ l ∈ L1 ++ "PARAMETER stop \"A\"".data ::
      (L2 ++ "PARAMETER stop \"B\"".data :: L3), '\n' ∉ l)
    (h1T : (L1.foldl stepLine initPState).inTemplate = false)
    (h1S : (L1.foldl stepLine initPState).inSystem = false)
    (h1stop : (lookupParam (L1.foldl stepLine initPState).parameters
      "stop".data).getD [] = [])
    (h2T : ((L1 ++ "PARAMETER stop \"A\"".data :: L2).foldl stepLine
      initPState).inTemplate = false)
    (h2S : ((L1 ++ "PARAMETER stop \"A\"".data :: L2).foldl stepLine
      initPState).inSystem = false)
    (h2stop : lookupParam ((L1 ++ "PARAMETER stop \"A\"".data :: L2).foldl
        stepLine initPState).parameters "stop".data =
      lookupParam (stepLine (L1.foldl stepLine initPState)
        "PARAMETER stop \"A\"".data).parameters "stop".data)
    (h3stop : lookupParam ((L1 ++ "PARAMETER stop \"A\"".data ::
        (L2 ++ "PARAMETER stop \"B\"".data :: L3)).foldl stepLine
        initPState).parameters "stop".data =
      lookupParam (stepLine ((L1 ++ "PARAMETER stop \"A\"".data :: L2).foldl
        stepLine initPState) "PARAMETER stop \"B\"".data).parameters
        "stop".data) :
    lookupParam (parsedParameters (ParseOllamaModelfile
      (joinLines (L1 ++ "PARAMETER stop \"A\"".data ::
        (L2 ++ "PARAMETER stop \"B\"".data :: L3))))) "stop".data =
      some ["A".data, "B".data] := by
  set lineA : Str := "PARAMETER stop \"A\"".data with hA
  set lineB : Str := "PARAMETER stop \"B\"".data with hB
  set ls : List Str := L1 ++ lineA :: (L2 ++ lineB :: L3) with hls
  have hne : ls ≠ [] := by
    rcases L1 with _ | ⟨x, L1'⟩ <;> simp [hls]
  have hjoin : joinLines ls ≠ [] := by
    apply joinLines_ne_nil_of_two
    rw [hls]
    simp only [List.length_append, List.length_cons]
    omega
  rw [ParseOllamaModelfile, if_neg hjoin,
    splitLines_joinLines ls hne hnl]
  have hstepA : stepLine (L1.foldl stepLine initPState) lineA =
      { L1.foldl stepLine initPState with
        parameters := addParam (L1.foldl stepLine initPState).parameters
          "stop".data "A".data } := by
    have := stepLine_param_line (L1.foldl stepLine initPState) lineA
      "stop".data "\"A\"".data h1T h1S (by decide) (by decide) (by decide)
      (by decide) (by decide)
    simpa using this
  have hstepB : stepLine ((L1 ++ lineA :: L2).foldl stepLine initPState)
      lineB =
      { (L1 ++ lineA :: L2).foldl stepLine initPState with
        parameters := addParam
          ((L1 ++ lineA :: L2).foldl stepLine initPState).parameters
          "stop".data "B".data } := by
    have := stepLine_param_line ((L1 ++ lineA :: L2).foldl stepLine
      initPState) lineB "stop".data "\"B\"".data h2T h2S (by decide)
      (by decide) (by decide) (by decide) (by decide)
    simpa using this
  have hafterA : lookupParam (stepLine (L1.foldl stepLine initPState)
      lineA).parameters "stop".data = some ["A".data] := by
    rw [hstepA]
    simp only
    rw [lookupParam_addParam_self, h1stop]
    rfl
  have hafterB : lookupParam (stepLine ((L1 ++ lineA :: L2).foldl stepLine
      initPState) lineB).parameters "stop".data =
      some ["A".data, "B".data] := by
    rw [hstepB]
    simp only
    rw [lookupParam_addParam_self, h2stop, hafterA]
    rfl
  have hfinal : lookupParam (ls.foldl stepLine initPState).parameters
      "stop".data = some ["A".data, "B".data] := by
    rw [h3stop, hafterB]
  simpa [parsedParameters, finishParse] using hfinal

/-- Witness for the C7 theorem at a concrete directive source. -/
theorem parse_stop_params_in_order_witness :
    lookupParam (parsedParameters (ParseOllamaModelfile
      (joinLines (["x".data] ++ "PARAMETER stop \"A\"".data ::
        (["PARAMETER temperature 0.7".data] ++
          "PARAMETER stop \"B\"".data :: ["y".data]))))) "stop".data =
      some ["A".data, "B".data] :=
  parse_stop_params_in_order ["x".data] ["PARAMETER temperature 0.7".data]
    ["y".data] (by decide) (by decide) (by decide) (by decide) (by decide)
    (by decide) (by decide) (by decide)

/-! ## C9: interior-line handling during multi-line capture

Two behaviours of the Go loop contradict the claim: the terminator test uses
the trimmed line but the terminator is trimmed from the raw line (a line
whose trimmed form ends in the delimiter but whose raw form has trailing
whitespace keeps its quotes), and during system capture a line whose trimmed
form starts with `TEMPLATE` is taken by the template branch (checked first)
instead of being appended. -/

/-- C9 counterexample: a system capture whose closing line carries a trailing
space keeps the triple-quote delimiter in the captured value, and a system
capture interior line starting with `TEMPLATE` is not appended at all. -/
theorem parse_capture_counterexample :
    parsedSystem (ParseOllamaModelfile ("SYSTEM \"\"\"\nabc\"\"\" ").data) =
      "abc\"\"\" ".data ∧
    '"' ∈ parsedSystem (ParseOllamaModelfile
      ("SYSTEM \"\"\"\nabc\"\"\" ").data) ∧
    parsedSystem (ParseOllamaModelfile
      ("SYSTEM \"\"\"\nTEMPLATE q\nxy\"\"\"").data) = "xy".data :=
  ⟨by decide, by decide, by decide⟩

/-- C9 amended: during template capture every line whose trimmed form does
not end with the closing delimiter is appended verbatim; on the first line
whose trimmed form ends with the delimiter the capture returns to idle, and
the raw line, with the delimiter removed only when the raw line itself ends
with it, is appended when non-empty.  The same holds during system capture
for lines whose trimmed form does not begin with `TEMPLATE` (such lines are
taken by the template branch instead, which is checked first). -/
theorem stepLine_capture_behaviour (st : PState) (line : Str) :
    (st.inTemplate = true → st.inMultilineTemplate = true →
      st.inDoubleQuotedTemplate = false →
      (goHasSuffix (goTrimSpace line) "\"\"\"".data = false →
        stepLine st line =
          { st with templateLines := st.templateLines ++ [line] }) ∧
      (goHasSuffix (goTrimSpace line) "\"\"\"".data = true →
        stepLine st line = { st with
          templateLines := if goTrimSuffix line "\"\"\"".data ≠ [] then
            st.templateLines ++ [goTrimSuffix line "\"\"\"".data]
            else st.templateLines,
          inTemplate := false, inMultilineTemplate := false })) ∧
    (st.inTemplate = true → st.inMultilineTemplate = false →
      st.inDoubleQuotedTemplate = true →
      (goHasSuffix (goTrimSpace line) "\"".data = false →
        stepLine st line =
          { st with templateLines := st.templateLines ++ [line] }) ∧
      (goHasSuffix (goTrimSpace line) "\"".data = true →
        stepLine st line = { st with
          templateLines := if goTrimSuffix line "\"".data ≠ [] then
            st.templateLines ++ [goTrimSuffix line "\"".data]
            else st.templateLines,
          inTemplate := false, inDoubleQuotedTemplate := false })) ∧
    (st.inTemplate = false → st.inSystem = true →
      goHasPrefix (goTrimSpace line) "TEMPLATE".data = false →
      st.inMultilineSystem = true → st.inDoubleQuotedSystem = false →
      (goHasSuffix (goTrimSpace line) "\"\"\"".data = false →
        stepLine st line =
          { st with systemLines := st.systemLines ++ [line] }) ∧
      (goHasSuffix (goTrimSpace line) "\"\"\"".data = true →
        stepLine st line = { st with
          systemLines := if goTrimSuffix line "\"\"\"".data ≠ [] then
            st.systemLines ++ [goTrimSuffix line "\"\"\"".data]
            else st.systemLines,
          inSystem := false, inMultilineSystem := false })) ∧
    (st.inTemplate = false → st.inSystem = true →
      goHasPrefix (goTrimSpace line) "TEMPLATE".data = false →
      st.inMultilineSystem = false → st.inDoubleQuotedSystem = true →
      (goHasSuffix (goTrimSpace line) "\"".data = false →
        stepLine st line =
          { st with systemLines := st.systemLines ++ [line] }) ∧
      (goHasSuffix (goTrimSpace line) "\"".data = true →
        stepLine st line = { st with
          systemLines := if goTrimSuffix line "\"".data ≠ [] then
            st.systemLines ++ [goTrimSuffix line "\"".data]
            else st.systemLines,
          inSystem := false, inDoubleQuotedSystem := false })) := by
  refine ⟨?_, ?_, ?_, ?_⟩
  · intro h1 h2 h3
    constructor
    · intro hsuf
      simp [stepLine, h1, h2, h3, hsuf]
    · intro hsuf
      simp [stepLine, h1, h2, h3, hsuf]
  · intro h1 h2 h3
    constructor
    · intro hsuf
      simp [stepLine, h1, h2, h3, hsuf]
    · intro hsuf
      simp [stepLine, h1, h2, h3, hsuf]
  · intro h1 h2 h3 h4 h5
    constructor
    · intro hsuf
      simp [stepLine, h1, h2, h3, h4, h5, hsuf]
    · intro hsuf
      simp [stepLine, h1, h2, h3, h4, h5, hsuf]
  · intro h1 h2 h3 h4 h5
    constructor
    · intro hsuf
      simp [stepLine, h1, h2, h3, h4, h5, hsuf]
    · intro hsuf
      simp [stepLine, h1, h2, h3, h4, h5, hsuf]

/-- Witness for the amended C9 theorem: an interior line of a triple-quoted
system capture is appended verbatim. -/
theorem stepLine_capture_behaviour_witness :
    stepLine ⟨[], [], [], [], [], false, false, false, true, true, false⟩
      "hello".data =
      { (⟨[], [], [], [], [], false, false, false, true, true, false⟩ :
          PState) with systemLines := [] ++ ["hello".data] } :=
  ((stepLine_capture_behaviour
    ⟨[], [], [], [], [], false, false, false, true, true, false⟩
    "hello".data).2.2.1 rfl rfl (by decide) rfl rfl).1 (by decide)

/-! ## C4: idempotence of the template translator

The proof shows that the output of the six-pass rewriter contains no match
of any of the six patterns, so a second application changes nothing.  The
key facts: a pattern match is a `{{ … }}` island whose interior cannot
contain `{`, `%` or `_`, while every replacement string starts with `{%` or
`{{` and no suffix of a replacement can start a match; hence matches in a
pass's output lie entirely inside copied text and correspond to matches of
the pass's input. -/

/-- The head atom is a non-whitespace literal. -/
def headNonWs : List Pat → Bool
  | Pat.lit c :: _ => !isWs c
  | _ => false

/-- Well-formed patterns: every whitespace atom is followed by a
non-whitespace literal, which makes maximal-munch whitespace matching
independent of the continuation. -/
def good : List Pat → Bool
  | [] => true
  | Pat.lit _ :: ps => good ps
  | Pat.wsStar :: ps => headNonWs ps && good ps
  | Pat.wsPlus :: ps => headNonWs ps && good ps

/-- The six patterns of the translator, in application order. -/
def specs6 : List (List Pat) :=
  [specIfSystem, specIfPrompt, specEnd, specSystem, specPrompt, specResponse]

/-- The six replacement strings of the translator, in application order. -/
def repls6 : List Str :=
  ["{% if system_message %}".data, "{% if user_message %}".data,
   "{% endif %}".data, "{{ system_message }}".data,
   "{{ user_message }}".data, "{{ model_response }}".data]

/-- The matcher consumes a prefix: the rest is no longer than the input. -/
theorem runPat_length (sp : List Pat) :
    ∀ l r : Str, runPat sp l = some r → r.length ≤ l.length := by
  induction sp with
  | nil =>
    intro l r h
    rw [runPat] at h
    cases h
    exact le_refl _
  | cons p ps ih =>
    intro l r h
    cases p with
    | lit c =>
      cases l with
      | nil => exact absurd h (by rw [runPat]; simp)
      | cons d l' =>
        rw [runPat] at h
        by_cases hd : d = c
        · rw [if_pos hd] at h
          exact le_trans (ih l' r h) (by simp)
        · rw [if_neg hd] at h
          exact absurd h (by simp)
    | wsStar =>
      rw [runPat] at h
      exact le_trans (ih _ r h) (List.dropWhile_suffix isWs).length_le
    | wsPlus =>
      cases l with
      | nil => exact absurd h (by rw [runPat]; simp)
      | cons d l' =>
        rw [runPat] at h
        by_cases hd : isWs d = true
        · rw [if_pos hd] at h
          exact le_trans (le_trans (ih _ r h)
            (List.dropWhile_suffix isWs).length_le) (by simp)
        · rw [if_neg hd] at h
          exact absurd h (by simp)

/-- A literal-headed pattern consumes at least one character. -/
theorem runPat_litHead_lt (c : Char) (ps : List Pat) (l r : Str)
    (h : runPat (Pat.lit c :: ps) l = some r) : r.length < l.length := by
  cases l with
  | nil => exact absurd h (by rw [runPat]; simp)
  | cons d l' =>
    rw [runPat] at h
    by_cases hd : d = c
    · rw [if_pos hd] at h
      exact lt_of_le_of_lt (runPat_length ps l' r h) (by simp)
    · rw [if_neg hd] at h
      exact absurd h (by simp)

/-- Dropping whitespace from an all-whitespace block followed by a
non-whitespace character lands exactly on that character. -/
theorem dropWhile_ws_append (w : Str) (c : Char) (x : Str)
    (hw : ∀ a ∈ w, isWs a = true) (hc : isWs c = false) :
    (w ++ c :: x).dropWhile isWs = c :: x := by
  induction w with
  | nil => simp [List.dropWhile_cons, hc]
  | cons a w' ih =>
    rw [List.cons_append, List.dropWhile_cons]
    rw [hw a (by simp)]
    simp only [if_true]
    exact ih fun b hb => hw b (List.mem_cons_of_mem a hb)

/-- The head of a `dropWhile` result violates the predicate. -/
theorem dropWhile_head_false (l : Str) :
    ∀ c x, l.dropWhile isWs = c :: x → isWs c = false := by
  induction l with
  | nil => intro c x h; exact absurd h (by simp)
  | cons a l' ih =>
    intro c x h
    rw [List.dropWhile_cons] at h
    by_cases ha : isWs a = true
    · rw [ha] at h
      exact ih c x (by simpa using h)
    · rw [Bool.of_not_eq_true ha] at h
      simp only [Bool.false_eq_true, if_false, List.cons.injEq] at h
      rw [← h.1]
      exact Bool.of_not_eq_true ha

/-- A successful match splits the input into the matched prefix and the
rest, and the matched prefix succeeds before any continuation. -/
theorem runPat_split (sp : List Pat) (hg : good sp = true) :
    ∀ l r : Str, runPat sp l = some r →
      ∃ m, l = m ++ r ∧ ∀ u, runPat sp (m ++ u) = some u := by
  induction sp with
  | nil =>
    intro l r h
    rw [runPat] at h
    cases h
    exact ⟨[], rfl, fun u => by simp [runPat]⟩
  | cons p ps ih =>
    cases p with
    | lit c =>
      intro l r h
      cases l with
      | nil => exact absurd h (by rw [runPat]; simp)
      | cons d l' =>
        rw [runPat] at h
        by_cases hd : d = c
        · rw [if_pos hd] at h
          obtain ⟨m', heq, hall⟩ := ih (by simpa [good] using hg) l' r h
          refine ⟨c :: m', by rw [List.cons_append, ← heq, hd], fun u => ?_⟩
          rw [List.cons_append, runPat, if_pos rfl]
          exact hall u
        · rw [if_neg hd] at h
          exact absurd h (by simp)
    | wsStar =>
      intro l r h
      rw [runPat] at h
      have hg' : headNonWs ps = true ∧ good ps = true := by
        simpa [good] using hg
      obtain ⟨c₁, ps', rfl⟩ : ∃ c₁ ps', ps = Pat.lit c₁ :: ps' := by
        cases ps with
        | nil => exact absurd hg'.1 (by simp [headNonWs])
        | cons q ps' =>
          cases q with
          | lit c => exact ⟨c, ps', rfl⟩
          | wsStar => exact absurd hg'.1 (by simp [headNonWs])
          | wsPlus => exact absurd hg'.1 (by simp [headNonWs])
      have hc₁ : isWs c₁ = false := by
        simpa [headNonWs] using hg'.1
      obtain ⟨m', heq, hall⟩ := ih hg'.2 _ r h
      obtain ⟨m'', rfl⟩ : ∃ m'', m' = c₁ :: m'' := by
        cases m' with
        | nil =>
          have h0 := hall []
          rw [List.nil_append, runPat] at h0
          exact absurd h0 (by simp)
        | cons a m'' =>
          have h0 := hall []
          rw [List.cons_append, runPat] at h0
          by_cases ha : a = c₁
          · exact ⟨m'', by rw [ha]⟩
          · rw [if_neg ha] at h0
            exact absurd h0 (by simp)
      refine ⟨l.takeWhile isWs ++ c₁ :: m'', ?_, fun u => ?_⟩
      · rw [List.append_assoc, ← heq, List.takeWhile_append_dropWhile]
      · rw [runPat, List.append_assoc, List.cons_append,
          dropWhile_ws_append _ _ _
            (fun b hb => List.mem_takeWhile_imp hb) hc₁]
        simpa using hall u
    | wsPlus =>
      intro l r h
      cases l with
      | nil => exact absurd h (by rw [runPat]; simp)
      | cons d l' =>
        rw [runPat] at h
        by_cases hd : isWs d = true
        · rw [if_pos hd] at h
          have hg' : headNonWs ps = true ∧ good ps = true := by
            simpa [good] using hg
          obtain ⟨c₁, ps', rfl⟩ : ∃ c₁ ps', ps = Pat.lit c₁ :: ps' := by
            cases ps with
            | nil => exact absurd hg'.1 (by simp [headNonWs])
            | cons q ps' =>
              cases q with
              | lit c => exact ⟨c, ps', rfl⟩
              | wsStar => exact absurd hg'.1 (by simp [headNonWs])
              | wsPlus => exact absurd hg'.1 (by simp [headNonWs])
          have hc₁ : isWs c₁ = false := by
            simpa [headNonWs] using hg'.1
          obtain ⟨m', heq, hall⟩ := ih hg'.2 _ r h
          obtain ⟨m'', rfl⟩ : ∃ m'', m' = c₁ :: m'' := by
            cases m' with
            | nil =>
              have h0 := hall []
              rw [List.nil_append, runPat] at h0
              exact absurd h0 (by simp)
            | cons a m'' =>
              have h0 := hall []
              rw [List.cons_append, runPat] at h0
              by_cases ha : a = c₁
              · exact ⟨m'', by rw [ha]⟩
              · rw [if_neg ha] at h0
                exact absurd h0 (by simp)
          refine ⟨d :: (l'.takeWhile isWs ++ c₁ :: m''), ?_, fun u => ?_⟩
          · rw [List.cons_append, List.append_assoc, ← heq,
              List.takeWhile_append_dropWhile]
          · rw [List.cons_append, runPat, if_pos hd, List.append_assoc,
              List.cons_append,
              dropWhile_ws_append _ _ _
                (fun b hb => List.mem_takeWhile_imp hb) hc₁]
            simpa using hall u
        · rw [if_neg hd] at h
          exact absurd h (by simp)

/-- The language of a pattern: the strings consisting of its literals with
whitespace runs at the whitespace atoms. -/
def SpecMatches : List Pat → Str → Prop
  | [], m => m = []
  | Pat.lit c :: ps, m => ∃ m', m = c :: m' ∧ SpecMatches ps m'
  | Pat.wsStar :: ps, m =>
    ∃ w m', m = w ++ m' ∧ (∀ a ∈ w, isWs a = true) ∧ SpecMatches ps m'
  | Pat.wsPlus :: ps, m =>
    ∃ w m', m = w ++ m' ∧ w ≠ [] ∧ (∀ a ∈ w, isWs a = true) ∧
      SpecMatches ps m'

/-- A matched prefix (one succeeding before every continuation) belongs to
the pattern's language. -/
theorem specMatches_of_runPat (sp : List Pat) (hg : good sp = true) :
    ∀ m : Str, (∀ u, runPat sp (m ++ u) = some u) → SpecMatches sp m := by
  induction sp with
  | nil =>
    intro m h
    have h0 := h []
    rw [runPat] at h0
    simpa [SpecMatches] using h0
  | cons p ps ih =>
    cases p with
    | lit c =>
      intro m h
      cases m with
      | nil =>
        have h0 := h []
        rw [List.nil_append, runPat] at h0
        exact absurd h0 (by simp)
      | cons d m' =>
        have h0 := h []
        rw [List.cons_append, runPat] at h0
        by_cases hd : d = c
        · refine ⟨m', by rw [hd], ?_⟩
          apply ih (by simpa [good] using hg)
          intro u
          have hu := h u
          rw [List.cons_append, runPat, if_pos hd] at hu
          exact hu
        · rw [if_neg hd] at h0
          exact absurd h0 (by simp)
    | wsStar =>
      intro m h
      have hg' : headNonWs ps = true ∧ good ps = true := by
        simpa [good] using hg
      obtain ⟨c₁, ps', rfl⟩ : ∃ c₁ ps', ps = Pat.lit c₁ :: ps' := by
        cases ps with
        | nil => exact absurd hg'.1 (by simp [headNonWs])
        | cons q ps' =>
          cases q with
          | lit c => exact ⟨c, ps', rfl⟩
          | wsStar => exact absurd hg'.1 (by simp [headNonWs])
          | wsPlus => exact absurd hg'.1 (by simp [headNonWs])
      have hc₁ : isWs c₁ = false := by
        simpa [headNonWs] using hg'.1
      rcases hdw : m.dropWhile isWs with _ | ⟨c', m'⟩
      · exfalso
        have hall : ∀ a ∈ m, isWs a = true := by
          simpa using List.dropWhile_eq_nil_iff.mp hdw
        have h1 := h [c₁]
        rw [runPat, dropWhile_ws_append m c₁ [] hall hc₁, runPat,
          if_pos rfl] at h1
        have := runPat_length ps' [] [c₁] h1
        simp at this
      · have hhead : isWs c' = false := dropWhile_head_false m c' m' hdw
        refine ⟨m.takeWhile isWs, c' :: m', ?_, ?_, ?_⟩
        · rw [← hdw, List.takeWhile_append_dropWhile]
        · exact fun a ha => List.mem_takeWhile_imp ha
        · apply ih hg'.2
          intro u
          have hu := h u
          rw [runPat] at hu
          have hdrop : (m ++ u).dropWhile isWs = c' :: m' ++ u := by
            conv_lhs => rw [← List.takeWhile_append_dropWhile (p := isWs)
              (l := m), hdw, List.append_assoc, List.cons_append]
            exact dropWhile_ws_append _ _ _
              (fun b hb => List.mem_takeWhile_imp hb) hhead
          rw [hdrop] at hu
          simpa using hu
    | wsPlus =>
      intro m h
      have hg' : headNonWs ps = true ∧ good ps = true := by
        simpa [good] using hg
      obtain ⟨c₁, ps', rfl⟩ : ∃ c₁ ps', ps = Pat.lit c₁ :: ps' := by
        cases ps with
        | nil => exact absurd hg'.1 (by simp [headNonWs])
        | cons q ps' =>
          cases q with
          | lit c => exact ⟨c, ps', rfl⟩
          | wsStar => exact absurd hg'.1 (by simp [headNonWs])
          | wsPlus => exact absurd hg'.1 (by simp [headNonWs])
      have hc₁ : isWs c₁ = false := by
        simpa [headNonWs] using hg'.1
      cases m with
      | nil =>
        exfalso
        have h1 := h [c₁]
        rw [List.nil_append, runPat, if_neg (by simp [hc₁])] at h1
        exact absurd h1 (by simp)
      | cons a m₂ =>
        have ha : isWs a = true := by
          have h0 := h []
          rw [List.cons_append, runPat] at h0
          by_cases hx : isWs a = true
          · exact hx
          · rw [if_neg hx] at h0
            exact absurd h0 (by simp)
        rcases hdw : m₂.dropWhile isWs with _ | ⟨c', m'⟩
        · exfalso
          have hall : ∀ b ∈ m₂, isWs b = true := by
            simpa using List.dropWhile_eq_nil_iff.mp hdw
          have h1 := h [c₁]
          rw [List.cons_append, runPat, if_pos ha,
            dropWhile_ws_append m₂ c₁ [] hall hc₁, runPat,
            if_pos rfl] at h1
          have := runPat_length ps' [] [c₁] h1
          simp at this
        · have hhead : isWs c' = false := dropWhile_head_false m₂ c' m' hdw
          refine ⟨a :: m₂.takeWhile isWs, c' :: m', ?_, by simp, ?_, ?_⟩
          · rw [List.cons_append, ← hdw, List.takeWhile_append_dropWhile]
          · intro b hb
            rcases List.mem_cons.mp hb with rfl | hb'
            · exact ha
            · exact List.mem_takeWhile_imp hb'
          · apply ih hg'.2
            intro u
            have hu := h u
            rw [List.cons_append, runPat, if_pos ha] at hu
            have hdrop : (m₂ ++ u).dropWhile isWs = c' :: m' ++ u := by
              conv_lhs => rw [← List.takeWhile_append_dropWhile (p := isWs)
                (l := m₂), hdw, List.append_assoc, List.cons_append]
              exact dropWhile_ws_append _ _ _
                (fun b hb => List.mem_takeWhile_imp hb) hhead
            rw [hdrop] at hu
            simpa using hu

/-- Every character of a matched string is a pattern literal or whitespace. -/
theorem specMatches_chars (sp : List Pat) (P : Char → Prop)
    (hlit : ∀ c, Pat.lit c ∈ sp → P c) (hws : ∀ a, isWs a = true → P a) :
    ∀ m, SpecMatches sp m → ∀ x ∈ m, P x := by
  induction sp with
  | nil =>
    intro m hm x hx
    rw [SpecMatches] at hm
    subst hm
    simp at hx
  | cons p ps ih =>
    intro m hm x hx
    cases p with
    | lit c =>
      obtain ⟨m', rfl, hm'⟩ := hm
      rcases List.mem_cons.mp hx with rfl | hx'
      · exact hlit x (by simp)
      · exact ih (fun d hd => hlit d (List.mem_cons_of_mem _ hd)) m'
          hm' x hx'
    | wsStar =>
      obtain ⟨w, m', rfl, hw, hm'⟩ := hm
      rcases List.mem_append.mp hx with hx' | hx'
      · exact hws x (hw x hx')
      · exact ih (fun d hd => hlit d (List.mem_cons_of_mem _ hd)) m'
          hm' x hx'
    | wsPlus =>
      obtain ⟨w, m', rfl, _, hw, hm'⟩ := hm
      rcases List.mem_append.mp hx with hx' | hx'
      · exact hws x (hw x hx')
      · exact ih (fun d hd => hlit d (List.mem_cons_of_mem _ hd)) m'
          hm' x hx'

/-- A pattern ending in a literal produces strings ending in it. -/
theorem specMatches_getLast (sp : List Pat) (c : Char) :
    sp.getLast? = some (Pat.lit c) → ∀ m, SpecMatches sp m →
      ∃ m', m = m' ++ [c] := by
  induction sp with
  | nil => intro h; simp at h
  | cons p ps ih =>
    intro hlast m hm
    cases ps with
    | nil =>
      cases p with
      | lit d =>
        simp only [List.getLast?_singleton, Option.some.injEq] at hlast
        obtain ⟨m', rfl, hm'⟩ := hm
        rw [SpecMatches] at hm'
        subst hm'
        exact ⟨[], by simp [Pat.lit.inj hlast]⟩
      | wsStar => simp at hlast
      | wsPlus => simp at hlast
    | cons q ps' =>
      rw [List.getLast?_cons_cons] at hlast
      cases p with
      | lit d =>
        obtain ⟨m', rfl, hm'⟩ := hm
        obtain ⟨m'', rfl⟩ := ih hlast m' hm'
        exact ⟨d :: m'', rfl⟩
      | wsStar =>
        obtain ⟨w, m', rfl, _, hm'⟩ := hm
        obtain ⟨m'', rfl⟩ := ih hlast m' hm'
        exact ⟨w ++ m'', by rw [List.append_assoc]⟩
      | wsPlus =>
        obtain ⟨w, m', rfl, _, _, hm'⟩ := hm
        obtain ⟨m'', rfl⟩ := ih hlast m' hm'
        exact ⟨w ++ m'', by rw [List.append_assoc]⟩

/-- The first literal character of a pattern. -/
def firstLitChar : List Pat → Option Char
  | [] => none
  | Pat.lit c :: _ => some c
  | Pat.wsStar :: ps => firstLitChar ps
  | Pat.wsPlus :: ps => firstLitChar ps

/-- The head of a non-empty matched string is whitespace or the pattern's
first literal. -/
theorem specMatches_head (sp : List Pat) :
    ∀ m, SpecMatches sp m → ∀ c m₃, m = c :: m₃ →
      isWs c = true ∨ firstLitChar sp = some c := by
  induction sp with
  | nil =>
    intro m hm c m₃ hc
    rw [SpecMatches] at hm
    subst hm
    simp at hc
  | cons p ps ih =>
    intro m hm c m₃ hc
    cases p with
    | lit d =>
      obtain ⟨m', rfl, _⟩ := hm
      rw [List.cons.injEq] at hc
      right
      rw [firstLitChar, hc.1]
    | wsStar =>
      obtain ⟨w, m', rfl, hw, hm'⟩ := hm
      cases w with
      | nil =>
        rw [List.nil_append] at hc
        rcases ih m' hm' c m₃ hc with h | h
        · exact Or.inl h
        · exact Or.inr (by rw [firstLitChar]; exact h)
      | cons a w' =>
        rw [List.cons_append, List.cons.injEq] at hc
        exact Or.inl (hc.1 ▸ hw a (by simp))
    | wsPlus =>
      obtain ⟨w, m', rfl, hne, hw, hm'⟩ := hm
      cases w with
      | nil => exact absurd rfl hne
      | cons a w' =>
        rw [List.cons_append, List.cons.injEq] at hc
        exact Or.inl (hc.1 ▸ hw a (by simp))

/-- The decidable structural facts about the six patterns. -/
theorem specs6_facts :
    (∀ sp ∈ specs6, good sp = true) ∧
    (∀ sp ∈ specs6, sp.take 2 = [Pat.lit '{', Pat.lit '{']) ∧
    (∀ sp ∈ specs6, Pat.lit '{' ∉ sp.drop 2) ∧
    (∀ sp ∈ specs6, sp.getLast? = some (Pat.lit '}')) ∧
    (∀ sp ∈ specs6, firstLitChar (sp.drop 2) = some '.' ∨
      firstLitChar (sp.drop 2) = some 'i' ∨
      firstLitChar (sp.drop 2) = some 'e') := by
  refine ⟨?_, ?_, ?_, ?_, ?_⟩ <;> decide

/-- The shape of a translator match: a `{{` island with no `{` inside,
ending in `}`, whose first interior character is whitespace or one of
`.`, `i`, `e`. -/
theorem match_shape (sp : List Pat) (hsp : sp ∈ specs6) (m : Str)
    (hm : SpecMatches sp m) :
    ∃ m₂, m = '{' :: '{' :: m₂ ∧ '{' ∉ m₂ ∧ m₂ ≠ [] ∧
      (∃ m₃, m₂ = m₃ ++ ['}']) ∧
      ∀ c m₄, m₂ = c :: m₄ →
        (isWs c = true ∨ c = '.' ∨ c = 'i' ∨ c = 'e') := by
  obtain ⟨hgood, htake, hnolb, hlast, hfirst⟩ := specs6_facts
  have hsp2 : ∃ sp₂, sp = Pat.lit '{' :: Pat.lit '{' :: sp₂ := by
    refine ⟨sp.drop 2, ?_⟩
    conv_lhs => rw [← List.take_append_drop 2 sp, htake sp hsp]
    rfl
  obtain ⟨sp₂, hspEq⟩ := hsp2
  have hsp₂drop : sp.drop 2 = sp₂ := by rw [hspEq]; rfl
  rw [hspEq] at hm
  obtain ⟨m₁, rfl, hm₁⟩ := hm
  obtain ⟨m₂, rfl, hm₂⟩ := hm₁
  refine ⟨m₂, rfl, ?_, ?_, ?_, ?_⟩
  · intro hmem
    have hnolb' : Pat.lit '{' ∉ sp₂ := by
      rw [← hsp₂drop]
      exact hnolb sp hsp
    refine specMatches_chars sp₂ (fun x => x ≠ '{') ?_ ?_ m₂ hm₂ '{' hmem rfl
    · intro c hc hcc
      rw [hcc] at hc
      exact hnolb' hc
    · intro a ha haa
      rw [haa] at ha
      exact absurd ha (by decide)
  · obtain ⟨m₃, hm₃⟩ := specMatches_getLast sp₂ '}' (by
      have h1 := hlast sp hsp
      rw [hspEq] at h1
      cases sp₂ with
      | nil => simp at h1
      | cons x sp₃ =>
        rw [List.getLast?_cons_cons, List.getLast?_cons_cons] at h1
        exact h1) m₂ hm₂
    rw [hm₃]
    simp
  · obtain ⟨m₃, hm₃⟩ := specMatches_getLast sp₂ '}' (by
      have h1 := hlast sp hsp
      rw [hspEq] at h1
      cases sp₂ with
      | nil => simp at h1
      | cons x sp₃ =>
        rw [List.getLast?_cons_cons, List.getLast?_cons_cons] at h1
        exact h1) m₂ hm₂
    exact ⟨m₃, hm₃⟩
  · intro c m₄ hc
    rcases specMatches_head sp₂ m₂ hm₂ c m₄ hc with h | h
    · exact Or.inl h
    · right
      rcases hfirst sp hsp with h5 | h5 | h5 <;>
        rw [hsp₂drop] at h5 <;> rw [h5] at h <;>
          simp only [Option.some.injEq] at h
      · exact Or.inl h.symm
      · exact Or.inr (Or.inl h.symm)
      · exact Or.inr (Or.inr h.symm)

/-- Every translator pattern opens with two literal braces. -/
theorem specs6_doubleBrace (sp : List Pat) (hsp : sp ∈ specs6) :
    ∃ ps, sp = Pat.lit '{' :: Pat.lit '{' :: ps := by
  refine ⟨sp.drop 2, ?_⟩
  conv_lhs => rw [← List.take_append_drop 2 sp, specs6_facts.2.1 sp hsp]
  rfl

/-- On the empty string every translator pattern fails. -/
theorem runPat_nil_none (sp : List Pat) (hsp : sp ∈ specs6) :
    runPat sp [] = none := by
  obtain ⟨ps, rfl⟩ := specs6_doubleBrace sp hsp
  rw [runPat]

/-- Decidable check that a pattern fails on `l` before ever reaching the end
of `l`, hence fails on `l ++ u` for every continuation `u`. -/
def defFails : List Pat → Str → Bool
  | [], _ => false
  | Pat.lit _ :: _, [] => false
  | Pat.lit c :: ps, d :: l => if d = c then defFails ps l else true
  | Pat.wsStar :: ps, l =>
    match l.dropWhile isWs with
    | [] => false
    | c' :: l' => defFails ps (c' :: l')
  | Pat.wsPlus :: _, [] => false
  | Pat.wsPlus :: ps, d :: l =>
    if isWs d then
      match l.dropWhile isWs with
      | [] => false
      | c' :: l' => defFails ps (c' :: l')
    else true

/-- Soundness of `defFails`. -/
theorem defFails_sound (sp : List Pat) :
    ∀ l : Str, defFails sp l = true → ∀ u, runPat sp (l ++ u) = none := by
  induction sp with
  | nil => intro l h; rw [defFails] at h; exact absurd h (by simp)
  | cons p ps ih =>
    intro l h u
    cases p with
    | lit c =>
      cases l with
      | nil => rw [defFails] at h; exact absurd h (by simp)
      | cons d l' =>
        rw [defFails] at h
        rw [List.cons_append, runPat]
        by_cases hd : d = c
        · rw [if_pos hd] at h ⊢
          exact ih l' h u
        · rw [if_neg hd]
    | wsStar =>
      rw [defFails] at h
      rcases hdw : l.dropWhile isWs with _ | ⟨c', l'⟩
      · rw [hdw] at h
        exact absurd h (by simp)
      · rw [hdw] at h
        rw [runPat]
        have hdrop : (l ++ u).dropWhile isWs = (c' :: l') ++ u := by
          conv_lhs => rw [← List.takeWhile_append_dropWhile (p := isWs)
            (l := l), hdw, List.append_assoc, List.cons_append]
          exact dropWhile_ws_append _ _ _
            (fun b hb => List.mem_takeWhile_imp hb)
            (dropWhile_head_false l c' l' hdw)
        rw [hdrop]
        exact ih _ h u
    | wsPlus =>
      cases l with
      | nil => rw [defFails] at h; exact absurd h (by simp)
      | cons d l₂ =>
        rw [defFails] at h
        rw [List.cons_append, runPat]
        by_cases hd : isWs d = true
        · rw [if_pos hd] at h ⊢
          rcases hdw : l₂.dropWhile isWs with _ | ⟨c', l'⟩
          · rw [hdw] at h
            exact absurd h (by simp)
          · rw [hdw] at h
            have hdrop : (l₂ ++ u).dropWhile isWs = (c' :: l') ++ u := by
              conv_lhs => rw [← List.takeWhile_append_dropWhile (p := isWs)
                (l := l₂), hdw, List.append_assoc, List.cons_append]
              exact dropWhile_ws_append _ _ _
                (fun b hb => List.mem_takeWhile_imp hb)
                (dropWhile_head_false l₂ c' l' hdw)
            rw [hdrop]
            exact ih _ h u
        · rw [if_neg hd]

/-- No non-empty suffix of a replacement string can begin a match of any
translator pattern, whatever text follows. -/
theorem safeBlock (t : Str) (ht : t ∈ repls6) (t' : Str)
    (ht' : t' ∈ t.tails) (hne : t' ≠ []) (sp : List Pat)
    (hsp : sp ∈ specs6) (u : Str) : runPat sp (t' ++ u) = none := by
  apply defFails_sound
  have key : ∀ tt ∈ repls6, ∀ x ∈ tt.tails, x ≠ [] →
      ∀ q ∈ specs6, defFails q x = true := by decide
  exact key t ht t' ht' hne sp hsp

/-- No match of `sp` starts at any position of `l`. -/
def NoMatch (sp : List Pat) (l : Str) : Prop :=
  ∀ u v : Str, l = u ++ v → runPat sp v = none

/-- `NoMatch` is inherited by suffixes. -/
theorem noMatch_suffix (sp : List Pat) (x y : Str)
    (h : NoMatch sp (x ++ y)) : NoMatch sp y := fun u v hv =>
  h (x ++ u) v (by rw [hv, List.append_assoc])

/-- The empty string has no matches. -/
theorem noMatch_nil (sp : List Pat) (hsp : sp ∈ specs6) : NoMatch sp [] := by
  intro u v hv
  have hv' : v = [] := (List.append_eq_nil.mp hv.symm).2
  rw [hv']
  exact runPat_nil_none sp hsp

/-- Prepending a replacement block cannot create a match. -/
theorem noMatch_block_append (sp : List Pat) (hsp : sp ∈ specs6) (t : Str)
    (ht : t ∈ repls6) (x : Str) (hx : NoMatch sp x) :
    NoMatch sp (t ++ x) := by
  intro u v hv
  rcases List.append_eq_append_iff.mp hv.symm with ⟨a', ha1, ha2⟩ |
    ⟨c', hc1, hc2⟩
  · rcases a' with _ | ⟨b, bs⟩
    · rw [List.nil_append] at ha2
      rw [ha2]
      exact hx [] x rfl
    · rw [ha2]
      exact safeBlock t ht (b :: bs)
        ((List.mem_tails _ _).mpr ⟨u, ha1.symm⟩) (by simp) sp hsp x
  · exact hx c' v hc2

/-- The replacement strings all start with `{` followed by `%` or `{`. -/
theorem repls6_take2 (t : Str) (ht : t ∈ repls6) :
    ∃ a, (a = '%' ∨ a = '{') ∧ t = '{' :: a :: t.drop 2 := by
  have htk : t.take 2 = ['{', '%'] ∨ t.take 2 = ['{', '{'] :=
    (by decide : ∀ tt ∈ repls6, tt.take 2 = ['{', '%'] ∨
      tt.take 2 = ['{', '{']) t ht
  rcases htk with h | h
  · refine ⟨'%', Or.inl rfl, ?_⟩
    conv_lhs => rw [← List.take_append_drop 2 t, h]
    rfl
  · refine ⟨'{', Or.inr rfl, ?_⟩
    conv_lhs => rw [← List.take_append_drop 2 t, h]
    rfl

/-- Prefix transfer: when a tail of a match (at least one character of the
match precedes it) appears at the front of a pass's output, that tail is
copied text, i.e. a prefix of the pass's input. -/
theorem goReplF_prefix_transfer (sp₀ : List Pat) (_hsp₀ : sp₀ ∈ specs6)
    (t₀ : Str) (ht₀ : t₀ ∈ repls6) (sp : List Pat) (hsp : sp ∈ specs6) :
    ∀ n : Nat, ∀ cs m r pre : Str, pre ≠ [] →
      (∀ u, runPat sp (pre ++ (m ++ u)) = some u) →
      goReplF sp₀ t₀ n cs = m ++ r →
      ∃ r₀, cs = m ++ r₀ := by
  intro n
  induction n with
  | zero =>
    intro cs m r pre hpre hall hout
    cases cs with
    | nil =>
      rw [goReplF] at hout
      have hm : m = [] := by
        cases m with
        | nil => rfl
        | cons a as => exact absurd hout.symm (by simp)
      exact ⟨[], by rw [hm]; rfl⟩
    | cons c cs' =>
      rw [goReplF] at hout
      exacts [⟨r, hout⟩, by simp]
  | succ n ihn =>
    intro cs m r pre hpre hall hout
    cases m with
    | nil => exact ⟨cs, (List.nil_append cs).symm⟩
    | cons d m₃ =>
      cases cs with
      | nil =>
        rw [goReplF] at hout
        exact absurd hout (by simp)
      | cons e cs' =>
        rw [goReplF] at hout
        rcases h₀ : runPat sp₀ (e :: cs') with _ | rest
        · rw [h₀] at hout
          simp only [List.cons_append, List.cons.injEq] at hout
          obtain ⟨r₀, hr₀⟩ := ihn cs' m₃ r (pre ++ [d]) (by simp)
            (fun u => by
              have hu := hall u
              rw [List.append_assoc]
              simpa [List.cons_append] using hu) hout.2
          exact ⟨r₀, by rw [hout.1, hr₀, List.cons_append]⟩
        · exfalso
          rw [h₀] at hout
          have hsm : SpecMatches sp (pre ++ d :: m₃) :=
            specMatches_of_runPat sp (specs6_facts.1 sp hsp) _ (fun u => by
              have hu := hall u
              rwa [← List.append_assoc] at hu)
          obtain ⟨m₂, hshape, hnolb, hne₂, ⟨m₄, hlast⟩, hhead⟩ :=
            match_shape sp hsp _ hsm
          obtain ⟨a, ha, ht₀eq⟩ := repls6_take2 t₀ ht₀
          rw [ht₀eq] at hout
          simp only [List.cons_append, List.cons.injEq] at hout
          obtain ⟨hd, hout'⟩ := hout
          cases m₃ with
          | nil =>
            have h1 : (pre ++ [d]).getLast? = some d :=
              List.getLast?_concat _
            rw [hshape, hlast] at h1
            have h2 : ('{' :: '{' :: (m₄ ++ ['}'])).getLast? = some '}' := by
              rw [show '{' :: '{' :: (m₄ ++ ['}']) =
                ('{' :: '{' :: m₄) ++ ['}'] by simp]
              exact List.getLast?_concat _
            rw [h2] at h1
            have : d = '}' := by simpa using h1.symm
            rw [this] at hd
            exact absurd hd.symm (by decide)
          | cons f m₄' =>
            simp only [List.cons_append, List.cons.injEq] at hout'
            have hf : a = f := hout'.1
            cases pre with
            | nil => exact absurd rfl hpre
            | cons p pre' =>
              cases pre' with
              | nil =>
                simp only [List.cons_append, List.nil_append,
                  List.cons.injEq] at hshape
                have hm₂ : m₂ = f :: m₄' := by
                  have := hshape.2.2
                  simpa [hd] using this.symm
                rcases hhead f m₄' hm₂ with hws | hdot
                · rcases ha with rfl | rfl
                  · rw [← hf] at hws
                    exact absurd hws (by decide)
                  · rw [← hf] at hws
                    exact absurd hws (by decide)
                · rcases ha with rfl | rfl <;> rw [← hf] at hdot <;>
                    rcases hdot with h | h | h <;> exact absurd h (by decide)
              | cons q pre'' =>
                apply hnolb
                have hm₂ : m₂ = pre'' ++ d :: f :: m₄' := by
                  have h3 : p = '{' ∧ q = '{' ∧ pre'' ++ d :: f :: m₄' = m₂ := by
                    simpa [List.cons_append, List.cons.injEq] using hshape
                  exact h3.2.2.symm
                rw [hm₂, hd]
                simp

/-- The output of a pass contains no match of its own pattern, and no match
of any translator pattern that the input was already free of. -/
theorem goReplF_noMatch (sp₀ : List Pat) (hsp₀ : sp₀ ∈ specs6) (t₀ : Str)
    (ht₀ : t₀ ∈ repls6) (sp : List Pat) (hsp : sp ∈ specs6) :
    ∀ n : Nat, ∀ cs : Str, cs.length ≤ n →
      (sp = sp₀ ∨ NoMatch sp cs) →
      NoMatch sp (goReplF sp₀ t₀ n cs) := by
  intro n
  induction n with
  | zero =>
    intro cs hlen _
    have hcs : cs = [] := List.length_eq_zero.mp (Nat.le_zero.mp hlen)
    subst hcs
    rw [goReplF]
    exact noMatch_nil sp hsp
  | succ n ihn =>
    intro cs hlen hdisj
    cases cs with
    | nil =>
      rw [goReplF]
      exact noMatch_nil sp hsp
    | cons c cs' =>
      rw [goReplF]
      rcases h₀ : runPat sp₀ (c :: cs') with _ | rest
      · have hout' : NoMatch sp (goReplF sp₀ t₀ n cs') := by
          apply ihn cs' (by simpa using hlen)
          rcases hdisj with h | h
          · exact Or.inl h
          · exact Or.inr (noMatch_suffix sp [c] cs' h)
        intro u v huv
        cases u with
        | nil =>
          rw [List.nil_append] at huv
          rw [← huv]
          rcases hv : runPat sp (c :: goReplF sp₀ t₀ n cs') with _ | r
          · rfl
          · exfalso
            obtain ⟨m, hm, hall⟩ :=
              runPat_split sp (specs6_facts.1 sp hsp) _ r hv
            cases m with
            | nil =>
              have h1 := hall []
              rw [List.nil_append] at h1
              rw [runPat_nil_none sp hsp] at h1
              exact absurd h1 (by simp)
            | cons d m'' =>
              simp only [List.cons_append, List.cons.injEq] at hm
              obtain ⟨r₀, hr₀⟩ := goReplF_prefix_transfer sp₀ hsp₀ t₀ ht₀
                sp hsp n cs' m'' (r) [d] (by simp)
                (fun u => by simpa using hall u) hm.2
              have hcon : runPat sp (c :: cs') = some r₀ := by
                rw [hm.1, hr₀, show d :: (m'' ++ r₀) = (d :: m'') ++ r₀ from
                  rfl]
                exact hall r₀
              rcases hdisj with h | h
              · rw [h] at hcon
                rw [h₀] at hcon
                exact absurd hcon (by simp)
              · rw [h [] (c :: cs') rfl] at hcon
                exact absurd hcon (by simp)
        | cons a u' =>
          simp only [List.cons_append, List.cons.injEq] at huv
          exact hout' u' v huv.2
      · have hrest : rest.length ≤ n := by
          obtain ⟨ps, hps⟩ := specs6_doubleBrace sp₀ hsp₀
          have := runPat_litHead_lt '{' (Pat.lit '{' :: ps) (c :: cs') rest
            (by rw [← hps]; exact h₀)
          simp only [List.length_cons] at this
          have hlen' : cs'.length + 1 ≤ n + 1 := by simpa using hlen
          omega
        have hout' : NoMatch sp (goReplF sp₀ t₀ n rest) := by
          apply ihn rest hrest
          rcases hdisj with h | h
          · exact Or.inl h
          · obtain ⟨m₀, hm₀, _⟩ :=
              runPat_split sp₀ (specs6_facts.1 sp₀ hsp₀) _ rest h₀
            apply Or.inr
            apply noMatch_suffix sp m₀ rest
            rw [← hm₀]
            exact h
        exact noMatch_block_append sp hsp t₀ ht₀ _ hout'

/-- A pass is the identity on strings free of its pattern. -/
theorem goReplF_id_of_noMatch (sp : List Pat) (t : Str) :
    ∀ (n : Nat) (l : Str), NoMatch sp l → goReplF sp t n l = l := by
  intro n
  induction n with
  | zero =>
    intro l _
    cases l with
    | nil => rw [goReplF]
    | cons c cs =>
      rw [goReplF]
      simp
  | succ n ihn =>
    intro l hl
    cases l with
    | nil => rw [goReplF]
    | cons c cs =>
      rw [goReplF, hl [] (c :: cs) rfl]
      rw [ihn cs (noMatch_suffix sp [c] cs hl)]

/-- The output of `replaceAll` for a translator pass has no match of the
pass's own pattern, and keeps absence of matches of the other patterns. -/
theorem replaceAll_noMatch (sp₀ : List Pat) (hsp₀ : sp₀ ∈ specs6) (t₀ : Str)
    (ht₀ : t₀ ∈ repls6) (sp : List Pat) (hsp : sp ∈ specs6) (l : Str)
    (h : sp = sp₀ ∨ NoMatch sp l) :
    NoMatch sp (replaceAll sp₀ t₀ l) :=
  goReplF_noMatch sp₀ hsp₀ t₀ ht₀ sp hsp l.length l (le_refl _) h

/-- `replaceAll` is the identity on strings free of its pattern. -/
theorem replaceAll_id (sp : List Pat) (t l : Str) (h : NoMatch sp l) :
    replaceAll sp t l = l :=
  goReplF_id_of_noMatch sp t l.length l h

/-- The translator's output is free of all six patterns. -/
theorem convert_output_noMatch (s : Str) :
    ∀ sp ∈ specs6, NoMatch sp (convertGoTemplateToJinja s) := by
  intro sp hsp
  unfold convertGoTemplateToJinja
  fin_cases hsp
  · apply replaceAll_noMatch _ (by decide) _ (by decide) _ (by decide)
    apply Or.inr
    apply replaceAll_noMatch _ (by decide) _ (by decide) _ (by decide)
    apply Or.inr
    apply replaceAll_noMatch _ (by decide) _ (by decide) _ (by decide)
    apply Or.inr
    apply replaceAll_noMatch _ (by decide) _ (by decide) _ (by decide)
    apply Or.inr
    apply replaceAll_noMatch _ (by decide) _ (by decide) _ (by decide)
    apply Or.inr
    apply replaceAll_noMatch _ (by decide) _ (by decide) _ (by decide)
    exact Or.inl rfl
  · apply replaceAll_noMatch _ (by decide) _ (by decide) _ (by decide)
    apply Or.inr
    apply replaceAll_noMatch _ (by decide) _ (by decide) _ (by decide)
    apply Or.inr
    apply replaceAll_noMatch _ (by decide) _ (by decide) _ (by decide)
    apply Or.inr
    apply replaceAll_noMatch _ (by decide) _ (by decide) _ (by decide)
    apply Or.inr
    apply replaceAll_noMatch _ (by decide) _ (by decide) _ (by decide)
    exact Or.inl rfl
  · apply replaceAll_noMatch _ (by decide) _ (by decide) _ (by decide)
    apply Or.inr
    apply replaceAll_noMatch _ (by decide) _ (by decide) _ (by decide)
    apply Or.inr
    apply replaceAll_noMatch _ (by decide) _ (by decide) _ (by decide)
    apply Or.inr
    apply replaceAll_noMatch _ (by decide) _ (by decide) _ (by decide)
    exact Or.inl rfl
  · apply replaceAll_noMatch _ (by decide) _ (by decide) _ (by decide)
    apply Or.inr
    apply replaceAll_noMatch _ (by decide) _ (by decide) _ (by decide)
    apply Or.inr
    apply replaceAll_noMatch _ (by decide) _ (by decide) _ (by decide)
    exact Or.inl rfl
  · apply replaceAll_noMatch _ (by decide) _ (by decide) _ (by decide)
    apply Or.inr
    apply replaceAll_noMatch _ (by decide) _ (by decide) _ (by decide)
    exact Or.inl rfl
  · apply replaceAll_noMatch _ (by decide) _ (by decide) _ (by decide)
    exact Or.inl rfl

/-- The translator is the identity on strings free of all six patterns. -/
theorem convert_id_of_noMatch (y : Str)
    (h : ∀ sp ∈ specs6, NoMatch sp y) : convertGoTemplateToJinja y = y := by
  unfold convertGoTemplateToJinja
  rw [replaceAll_id specIfSystem _ y (h specIfSystem (by decide))]
  rw [replaceAll_id specIfPrompt _ y (h specIfPrompt (by decide))]
  rw [replaceAll_id specEnd _ y (h specEnd (by decide))]
  rw [replaceAll_id specSystem _ y (h specSystem (by decide))]
  rw [replaceAll_id specPrompt _ y (h specPrompt (by decide))]
  rw [replaceAll_id specResponse _ y (h specResponse (by decide))]

/-- C4: the template translator is idempotent — a second application never
finds anything to rewrite. -/
theorem convertGoTemplateToJinja_idempotent (s : Str) :
    convertGoTemplateToJinja (convertGoTemplateToJinja s) =
      convertGoTemplateToJinja s :=
  convert_id_of_noMatch (convertGoTemplateToJinja s)
    (convert_output_noMatch s)

end Gollama
